import Mathlib

/-!
Verification of the MoTeC telemetry-file translation and safe-mutation engine
of the USC-Racing configuration repository.

The Python sources are shallowly embedded: XML trees become an explicit
mutual inductive (`XElem`/`XList`) mirroring `xml.etree.ElementTree`
elements (tag, attribute list in insertion order, `.text`, `.tail`,
children); the filesystem becomes an association list from paths to file
contents, where a file that parses as XML is represented by its parsed
tree (its bytes are the deterministic serialization of that tree, so byte
equality of two such files is equality of the trees); the disk operations
performed by an update run are recorded as an explicit event trace that is
replayed against the filesystem model.  Python functions that can raise at
their public boundary return an explicit outcome type.
-/

set_option autoImplicit false
set_option linter.unusedVariables false

namespace USCRacing

/-- Python truthiness of an optional string (`None` and `""` are falsy). -/
def truthy : Option String → Bool
  | none => false
  | some s => s ≠ ""

/-- Python `str.strip()`: drop whitespace from both ends (implemented by
structural recursion so that concrete values reduce in the kernel). -/
def pyStrip (s : String) : String :=
  ⟨((s.data.dropWhile (·.isWhitespace)).reverse.dropWhile (·.isWhitespace)).reverse⟩

/-- Python `str.upper()` (ASCII model). -/
def pyUpper (s : String) : String := ⟨s.data.map Char.toUpper⟩

/-- Python `str.lower()` (ASCII model). -/
def pyLower (s : String) : String := ⟨s.data.map Char.toLower⟩

/-- Python `str.startswith(pre)`. -/
def pyStartsWith (s pre : String) : Bool := pre.data.isPrefixOf s.data

/-- Fuel-indexed worker for `str.replace`: replace every non-overlapping
occurrence of `pat` (non-empty), scanning left to right.  The fuel is the
input length, which bounds the number of scanning steps. -/
def pyReplaceFuel (pat rep : List Char) : Nat → List Char → List Char
  | _, [] => []
  | 0, l => l
  | fuel + 1, c :: rest =>
    if pat.isPrefixOf (c :: rest) then
      rep ++ pyReplaceFuel pat rep fuel (List.drop pat.length (c :: rest))
    else c :: pyReplaceFuel pat rep fuel rest

/-- Python `s.replace(pat, rep)` (with a non-empty pattern, as in all the
call sites modeled here; an empty pattern leaves the string unchanged). -/
def pyReplace (s pat rep : String) : String :=
  if pat = "" then s
  else ⟨pyReplaceFuel pat.data rep.data s.data.length s.data⟩

/-- Python `s.split(sep)` for a one-character separator (keeps empty
fields, like `str.split` with an explicit separator). -/
def pySplitChar (sep : Char) : List Char → List (List Char)
  | [] => [[]]
  | c :: rest =>
    match pySplitChar sep rest with
    | [] => [[]]
    | g :: gs => if c = sep then [] :: g :: gs else (c :: g) :: gs

/-- Python `sep.join(parts)`. -/
def pyJoin (sep : String) : List String → String
  | [] => ""
  | [x] => x
  | x :: y :: rest => x ++ sep ++ pyJoin sep (y :: rest)

/-- `str.title()` restricted to ASCII: the first character of every run of
letters is upper-cased and the rest of the run lower-cased. -/
def pyTitleAux : List Char → Bool → List Char
  | [], _ => []
  | c :: rest, prevCased =>
    if c.isAlpha then
      (if prevCased then c.toLower else c.toUpper) :: pyTitleAux rest true
    else
      c :: pyTitleAux rest false

/-- Python `str.title()` (ASCII model). -/
def pyTitle (s : String) : String := ⟨pyTitleAux s.data false⟩

/-- Python `needle in haystack` substring containment. -/
def hasSub (needle haystack : String) : Bool :=
  haystack.data.tails.any (fun t => needle.data.isPrefixOf t)

/-- Python falsy-or-whitespace test `not s or not s.strip()` used by
`ElementTree.indent` on `.text` / `.tail` values. -/
def wsOnly : Option String → Bool
  | none => true
  | some s => s.data.all (·.isWhitespace)

/-! ## XML element model (`xml.etree.ElementTree`) -/

mutual

/-- An `ElementTree` element: tag, attributes in insertion order, `.text`,
`.tail`, and the list of child elements. -/
inductive XElem : Type where
  | mk (tag : String) (attrs : List (String × String)) (text : Option String)
      (tail : Option String) (kids : XList)

/-- Children of an element, as an explicit list type so that mutual
structural recursion and induction are available. -/
inductive XList : Type where
  | nil
  | cons (e : XElem) (es : XList)

end

namespace XElem

def tag : XElem → String
  | .mk t _ _ _ _ => t

def attrs : XElem → List (String × String)
  | .mk _ a _ _ _ => a

def text : XElem → Option String
  | .mk _ _ t _ _ => t

def tail : XElem → Option String
  | .mk _ _ _ t _ => t

def kids : XElem → XList
  | .mk _ _ _ _ k => k

end XElem

namespace XList

/-- Number of children. -/
def len : XList → Nat
  | .nil => 0
  | .cons _ es => es.len + 1

/-- Append one element at the end (`ET.SubElement` placement). -/
def snoc : XList → XElem → XList
  | .nil, x => .cons x .nil
  | .cons e es, x => .cons e (es.snoc x)

end XList

/-- `ET.SubElement(parent, ...)`: append a child at the end of the list. -/
def appendKid (e : XElem) (c : XElem) : XElem :=
  .mk e.tag e.attrs e.text e.tail (e.kids.snoc c)

/-- Children list built from a Lean list (a Python loop appending one
subelement per list entry). -/
def listToX : List XElem → XList
  | [] => .nil
  | e :: es => .cons e (listToX es)

/-- `element.get(key)`: first binding of the attribute, if any. -/
def getA : List (String × String) → String → Option String
  | [], _ => none
  | (k, v) :: rest, key => if k = key then some v else getA rest key

/-- `element.get(key, default)`. -/
def getAD (a : List (String × String)) (key dflt : String) : String :=
  (getA a key).getD dflt

/-- `element.set(key, value)`: replace the first binding in place, or append
a new binding (Python dict update semantics with insertion order). -/
def setA : List (String × String) → String → String → List (String × String)
  | [], k, v => [(k, v)]
  | (k', v') :: rest, k, v =>
    if k' = k then (k, v) :: rest else (k', v') :: setA rest k v

/-- Replace only the attributes of an element. -/
def withAttrs (e : XElem) (a : List (String × String)) : XElem :=
  .mk e.tag a e.text e.tail e.kids

mutual

/-- `root.find(".//" + T)` followed by an in-place update of the located
element: locate the first strict descendant with tag `T` in document
(pre)order and replace it by `(g e).2`, reporting `(g e).1`; `none` when no
descendant has tag `T`. -/
def updSecE (T : String) (g : XElem → Bool × XElem) : XElem → Option (Bool × XElem)
  | .mk tg a te ta ks =>
    match updSecL T g ks with
    | some (b, ks') => some (b, .mk tg a te ta ks')
    | none => none

def updSecL (T : String) (g : XElem → Bool × XElem) : XList → Option (Bool × XList)
  | .nil => none
  | .cons e es =>
    if e.tag = T then
      some ((g e).1, .cons (g e).2 es)
    else
      match updSecE T g e with
      | some (b, e') => some (b, .cons e' es)
      | none =>
        match updSecL T g es with
        | some (b, es') => some (b, .cons e es')
        | none => none

end

/-- Update the first child satisfying `p` by `f`; `none` when no child
matches (models a `for child in elem.findall(tag): if ...: mutate; return`
loop). -/
def updKidsFirst (p : XElem → Bool) (f : XElem → XElem) : XList → Option XList
  | .nil => none
  | .cons e es =>
    if p e then some (.cons (f e) es)
    else
      match updKidsFirst p f es with
      | some es' => some (.cons e es')
      | none => none

/-! ## `ElementTree.indent` -/

/-- The indentation string `"\n" + level * space` of `ET.indent`. -/
def indStr (sp : String) : Nat → String
  | 0 => "\n"
  | level + 1 => indStr sp level ++ sp

mutual

/-- `ET.indent(elem, space, level)`: a childless element is left alone;
otherwise whitespace-only `.text` becomes the child indentation and the
children are processed by `indentKids`. -/
def indentElem (sp : String) (level : Nat) : XElem → XElem
  | .mk tg a te ta .nil => .mk tg a te ta .nil
  | .mk tg a te ta (.cons c cs) =>
    .mk tg a (if wsOnly te then some (indStr sp (level + 1)) else te) ta
      (indentKids sp level (.cons c cs))

/-- Children processing of `ET.indent`: recurse into children that
themselves have children; every child whose `.tail` is falsy or whitespace
gets the child indentation as tail, except the last child which gets the
parent indentation (the dedent after the final child). -/
def indentKids (sp : String) (level : Nat) : XList → XList
  | .nil => .nil
  | .cons c .nil =>
    let c' := indentElem sp (level + 1) c
    .cons (.mk c'.tag c'.attrs c'.text
      (if wsOnly c.tail then some (indStr sp level) else c.tail) c'.kids) .nil
  | .cons c (.cons d ds) =>
    let c' := indentElem sp (level + 1) c
    .cons (.mk c'.tag c'.attrs c'.text
      (if wsOnly c.tail then some (indStr sp (level + 1)) else c.tail) c'.kids)
      (indentKids sp level (.cons d ds))

end

mutual

/-- Skeleton equality: equal tags, equal attribute lists, and pointwise
skeleton-equal children; `.text` and `.tail` are ignored.  All searching
and mutating decisions of the updater depend only on the skeleton, while
`ET.indent` changes only `.text`/`.tail`. -/
inductive SkelEq : XElem → XElem → Prop where
  | mk : ∀ (tg : String) (a : List (String × String))
      (te1 ta1 : Option String) (ks1 : XList)
      (te2 ta2 : Option String) (ks2 : XList),
      SkelEqL ks1 ks2 → SkelEq (.mk tg a te1 ta1 ks1) (.mk tg a te2 ta2 ks2)

inductive SkelEqL : XList → XList → Prop where
  | nil : SkelEqL .nil .nil
  | cons : ∀ (e1 e2 : XElem) (es1 es2 : XList),
      SkelEq e1 e2 → SkelEqL es1 es2 → SkelEqL (.cons e1 es1) (.cons e2 es2)

end

/-! ## Serialization

`ET.tostring(root, encoding="utf-8", xml_declaration=True)` is
deterministic in the tree; the byte string of a file whose content is a
tree `t` is `renderDoc t`.  Only determinism (functionality) of the
serialization is used by the theorems, so escaping is modeled as the
identity. -/

mutual

def renderElem : XElem → String
  | .mk tg a te ta ks =>
    "<" ++ tg ++ (a.map (fun kv => " " ++ kv.1 ++ "=\x22" ++ kv.2 ++ "\x22")).foldl
        (· ++ ·) "" ++ ">"
      ++ (te.getD "") ++ renderList ks ++ "</" ++ tg ++ ">" ++ (ta.getD "")

def renderList : XList → String
  | .nil => ""
  | .cons e es => renderElem e ++ renderList es

end

/-- Serialized bytes of a whole document, with the XML declaration. -/
def renderDoc (t : XElem) : String :=
  "<?xml version=\x221.0\x22 encoding=\x22utf-8\x22?>\n" ++ renderElem t

/-! ## Filesystem model -/

/-- Content of a file in the model: either bytes that parse as XML
(represented by the parsed tree; the bytes are `renderDoc` of the tree) or
raw bytes that do not parse. -/
inductive Content : Type where
  | xml (t : XElem)
  | raw (s : String)

/-- Bytes of a file content. -/
def Content.bytes : Content → String
  | .xml t => renderDoc t
  | .raw s => s

/-- The filesystem: an association list from paths to contents. -/
def Fs : Type := List (String × Content)

namespace Fs

def lookup : Fs → String → Option Content
  | [], _ => none
  | (p, c) :: rest, q => if p = q then some c else lookup rest q

def set : Fs → String → Content → Fs
  | [], q, c => [(q, c)]
  | (p, c') :: rest, q, c =>
    if p = q then (q, c) :: rest else (p, c') :: set rest q c

def remove : Fs → String → Fs
  | [], _ => []
  | (p, c) :: rest, q => if p = q then remove rest q else (p, c) :: remove rest q

end Fs

/-- Disk operations performed by `update_parameter_in_ldx`, in program
order.  `backup` is `shutil.copy2(src, dst)`, `writeTmp` is the staging
write (open + write + flush + fsync), `rename` is `os.replace(src, dst)`,
and `verifyOpen` is the re-parse of a path by the verification block. -/
inductive FsEvent : Type where
  | backup (src dst : String)
  | writeTmp (path : String) (data : Content)
  | rename (src dst : String)
  | verifyOpen (path : String)

/-- Replay one disk operation against the filesystem model. -/
def applyEvent (fs : Fs) : FsEvent → Fs
  | .backup src dst =>
    match fs.lookup src with
    | some c => fs.set dst c
    | none => fs
  | .writeTmp p c => fs.set p c
  | .rename src dst =>
    match fs.lookup src with
    | some c => (fs.remove src).set dst c
    | none => fs
  | .verifyOpen _ => fs

/-- Replay a trace of disk operations. -/
def applyEvents (fs : Fs) : List FsEvent → Fs
  | [] => fs
  | e :: rest => applyEvents (applyEvent fs e) rest

/-- Whether an event is the atomic `os.replace` rename. -/
def FsEvent.isRename : FsEvent → Bool
  | .rename _ _ => true
  | _ => false

/-- Whether an event is the `.bak` copy. -/
def FsEvent.isBackup : FsEvent → Bool
  | .backup _ _ => true
  | _ => false

/-- Whether replaying an event can change the content stored at `q`. -/
def FsEvent.touches (q : String) : FsEvent → Bool
  | .backup _ dst => dst = q
  | .writeTmp p _ => p = q
  | .rename src dst => src = q ∨ dst = q
  | .verifyOpen _ => false

/-! ## `backend/internal/motec_ldx_updater.py` — `MotecLdxUpdater` -/

namespace MotecLdxUpdater

/-- One catalog entry of `car_parameters.get_car_parameter_definition`:
`display_name` may be absent or empty (both falsy), `unit` defaults to
`""`. -/
structure CatDefn where
  display_name : Option String
  unit : String

/-- The car-parameter catalog: `parameter_name → definition`. -/
def Catalog : Type := List (String × CatDefn)

def catLookup : Catalog → String → Option CatDefn
  | [], _ => none
  | (n, d) :: rest, q => if n = q then some d else catLookup rest q

/-- `file_path.with_suffix(file_path.suffix + ".bak")`: `pathlib` strips the
last suffix and appends `suffix + ".bak"`, which is appending `".bak"`. -/
def bakPath (p : String) : String := p ++ ".bak"

/-- `file_path.with_suffix(file_path.suffix + ".tmp")`, i.e. `p ++ ".tmp"`. -/
def tmpPath (p : String) : String := p ++ ".tmp"

/-- The shared shape of the three attribute-setting section updaters: try
to update the first matching direct child, report `False` with the section
untouched when no child matches. -/
def gAttrUpd (p : XElem → Bool) (f : XElem → XElem) (d : XElem) : Bool × XElem :=
  match updKidsFirst p f d.kids with
  | some ks => (true, .mk d.tag d.attrs d.text d.tail ks)
  | none => (false, d)

/-- `_update_details_string`: inside the first `.//Details` descendant, set
`Value` on the first direct `String` child whose `Id` equals `string_id`;
report whether such a child was found. -/
def gDetails (sid v : String) (d : XElem) : Bool × XElem :=
  gAttrUpd
    (fun e => e.tag = "String" ∧ getA e.attrs "Id" = some sid)
    (fun e => withAttrs e (setA e.attrs "Value" v)) d

/-- `_update_math_item` inner loop: a `MathScaleOffset` child matches when
its `Id` (default `""`) equals the underscore or the space form of the id;
on a match the loop sets `Scale` for a scale-like field or `Offset` for an
offset-like field, and otherwise keeps scanning, so an unknown field never
updates anything. -/
def gMath (itemId field v : String) (m : XElem) : Bool × XElem :=
  let spaced := pyReplace itemId "_" " "
  let mtch := fun (e : XElem) =>
    e.tag = "MathScaleOffset" ∧
      (getAD e.attrs "Id" "" = itemId ∨ getAD e.attrs "Id" "" = spaced)
  if field = "scale" ∨ field = "Scale" then
    gAttrUpd mtch (fun e => withAttrs e (setA e.attrs "Scale" v)) m
  else if field = "offset" ∨ field = "Offset" then
    gAttrUpd mtch (fun e => withAttrs e (setA e.attrs "Offset" v)) m
  else (false, m)

/-- `_update_descriptor` inner loop: a `Descriptor` child matches when its
`Id` equals `desc_id` exactly (no space variant here); `DisplayDPS` is set
for a dps-like field, `DisplayUnit` for a unit-like field, anything else
keeps scanning. -/
def gDesc (descId field v : String) (d : XElem) : Bool × XElem :=
  let mtch := fun (e : XElem) =>
    e.tag = "Descriptor" ∧ getA e.attrs "Id" = some descId
  if field = "dps" ∨ field = "DisplayDPS" then
    gAttrUpd mtch (fun e => withAttrs e (setA e.attrs "DisplayDPS" v)) d
  else if field = "unit" ∨ field = "DisplayUnit" then
    gAttrUpd mtch (fun e => withAttrs e (setA e.attrs "DisplayUnit" v)) d
  else (false, d)

/-- The display name and formatted value composed by
`_update_or_add_details_documentation` (lines 320-347): catalog hit uses
`display_name` (falling back to the title-cased parameter name when falsy)
and appends the unit unless the value already contains it
case-insensitively; catalog miss title-cases the parameter name; a
non-blank comment is appended in parentheses. -/
def docNameValue (cat : Catalog) (parameterName newValue : String)
    (comment : Option String) : String × String :=
  let base :=
    match catLookup cat parameterName with
    | some defn =>
      let did :=
        match defn.display_name with
        | some s => if s = "" then pyTitle (pyReplace parameterName "_" " ") else s
        | none => pyTitle (pyReplace parameterName "_" " ")
      let fv :=
        if defn.unit ≠ "" ∧ newValue ≠ "" then
          if hasSub (pyLower defn.unit) (pyLower newValue) then newValue
          else pyStrip (newValue ++ " " ++ defn.unit)
        else newValue
      (did, fv)
    | none => (pyTitle (pyReplace parameterName "_" " "), newValue)
  match comment with
  | some c => if pyStrip c ≠ "" then (base.1, base.2 ++ " (" ++ pyStrip c ++ ")") else base
  | none => base

/-- A fresh `String` documentation element. -/
def newString (did fv : String) : XElem :=
  .mk "String" [("Id", did), ("Value", fv)] none none .nil

/-- A fresh `Details` section holding one documentation string. -/
def newDetails (did fv : String) : XElem :=
  .mk "Details" [] none none (.cons (newString did fv) .nil)

/-- A fresh `Layers` section holding a fresh `Details` section. -/
def newLayers (did fv : String) : XElem :=
  .mk "Layers" [] none none (.cons (newDetails did fv) .nil)

/-- Find-or-create of the documentation `String` inside a located `Details`
section (lines 361-377). -/
def gDocString (did fv : String) (d : XElem) : Bool × XElem :=
  match updKidsFirst
      (fun e => e.tag = "String" ∧ getA e.attrs "Id" = some did)
      (fun e => withAttrs e (setA e.attrs "Value" fv)) d.kids with
  | some ks => (true, .mk d.tag d.attrs d.text d.tail ks)
  | none => (true, appendKid d (newString did fv))

/-- Find-or-create of the `Details` section inside a located `Layers`
section (lines 355-359 followed by the string upsert). -/
def gDocLayers (did fv : String) (ly : XElem) : Bool × XElem :=
  match updSecE "Details" (gDocString did fv) ly with
  | some (_, ly') => (true, ly')
  | none => (true, appendKid ly (newDetails did fv))

/-- The tree effect of `_update_or_add_details_documentation`: find or
create `Layers`, inside it find or create `Details`, and upsert the
documentation string; this function always succeeds. -/
def docUpd (did fv : String) (root : XElem) : XElem :=
  match updSecE "Layers" (gDocLayers did fv) root with
  | some (_, root') => root'
  | none => appendKid root (newLayers did fv)

/-- Parameter-name dispatch of `update_parameter_in_ldx` (lines 92-126):
classify by prefix and run the matching mutator on the in-memory tree,
returning the `updated` flag and the mutated tree. -/
def dispatchMutate (cat : Catalog) (parameterName newValue : String)
    (comment : Option String) (root : XElem) : Bool × XElem :=
  if pyStartsWith parameterName "ldx_details_" then
    let originalId := pyReplace (pyReplace parameterName "ldx_details_" "") "_" " "
    match updSecE "Details" (gDetails originalId newValue) root with
    | some r => r
    | none => (false, root)
  else if pyStartsWith parameterName "ldx_math_" then
    let parts := (pySplitChar '_' (pyReplace parameterName "ldx_math_" "").data).map (fun l => String.mk l)
    if parts.length ≥ 2 then
      let field := parts.getLastD ""
      let itemId := pyJoin "_" parts.dropLast
      match updSecE "MathItems" (gMath itemId field newValue) root with
      | some r => r
      | none => (false, root)
    else (false, root)
  else if pyStartsWith parameterName "ldx_desc_" then
    let parts := (pySplitChar '_' (pyReplace parameterName "ldx_desc_" "").data).map (fun l => String.mk l)
    if parts.length ≥ 2 then
      let field := parts.getLastD ""
      let descId := pyJoin "_" parts.dropLast
      match updSecE "Descriptors" (gDesc descId field newValue) root with
      | some r => r
      | none => (false, root)
    else (false, root)
  else
    let nv := docNameValue cat parameterName newValue comment
    (true, docUpd nv.1 nv.2 root)

/-- Outcome of a Python call at its public boundary: a returned value or a
propagated exception. -/
inductive PyOutcome (α : Type) : Type where
  | ok (a : α)
  | raised (msg : String)
  deriving DecidableEq

/-- Result of one `update_parameter_in_ldx` call: the Python-level outcome,
the trace of disk operations performed, and the resulting filesystem
(`applyEvents` of the trace). -/
structure UpdateRun where
  result : PyOutcome Bool
  events : List FsEvent
  fsAfter : Fs

/-- `MotecLdxUpdater.update_parameter_in_ldx`.

For a missing file, `_get_file_stats` returns an error dictionary whose
`hash` key is absent, so the pre-`try` logging line
`before_stats.get("hash")[:16]` (line 76) subscripts `None` and the call
propagates a `TypeError`.  For an existing file the body runs inside the
`try`: a parse failure returns `False`; a dispatch failure returns `False`
with no disk operation; on success the file is backed up to `.bak` only if
no backup exists, the mutated tree is indented (`ET.indent(tree, space=" ",
level=0)`), staged to `<path>.tmp` with flush+fsync, committed by
`os.replace`, re-opened for the diagnostic verification, and `True` is
returned. -/
def update_parameter_in_ldx (fs : Fs) (cat : Catalog)
    (p parameterName newValue : String) (comment : Option String) : UpdateRun :=
  match fs.lookup p with
  | none =>
    { result := .raised "TypeError: NoneType object is not subscriptable",
      events := [], fsAfter := fs }
  | some (.raw _) => { result := .ok false, events := [], fsAfter := fs }
  | some (.xml t) =>
    match dispatchMutate cat parameterName newValue comment t with
    | (false, _) => { result := .ok false, events := [], fsAfter := fs }
    | (true, t') =>
      let backupEvs : List FsEvent :=
        if (fs.lookup (bakPath p)).isSome then [] else [.backup p (bakPath p)]
      let staged := indentElem " " 0 t'
      let evs := backupEvs ++
        [.writeTmp (tmpPath p) (.xml staged), .rename (tmpPath p) p, .verifyOpen p]
      { result := .ok true, events := evs, fsAfter := applyEvents fs evs }

end MotecLdxUpdater

/-! ## `backend/internal/motec/file_service.py` — `MotecFileService`

The optional Rust parser is not importable in this repository (the
`motec_parser` extension package is absent), so `read_ldx_rust` and
`read_ld_metadata_rust` return `None` and the Python path below is always
taken. -/

namespace MotecFileService

mutual

/-- `root.findall(".//" + T)`: all strict descendants with tag `T` in
document (pre)order. -/
def findAllE (T : String) : XElem → List XElem
  | .mk _ _ _ _ ks => findAllL T ks

def findAllL (T : String) : XList → List XElem
  | .nil => []
  | .cons e es =>
    (if e.tag = T then [e] else []) ++ findAllE T e ++ findAllL T es

end

/-- First direct child with the given tag (`elem.find(tag)` for a plain
tag path). -/
def firstKid (T : String) : XList → Option XElem
  | .nil => none
  | .cons e es => if e.tag = T then some e else firstKid T es

/-- `elem.findtext(tag, None)`: text of the first direct child with the
tag, where a found element with `text = None` yields `""`. -/
def findText (T : String) (e : XElem) : Option String :=
  (firstKid T e.kids).map (fun m => m.text.getD "")

/-- One channel dictionary as produced by `read_ldx` (keys `name`, `units`,
`source`, `scaling`, `math`). -/
structure Channel where
  name : String
  units : String
  source : String
  scaling : Option String
  math : Option String
  deriving DecidableEq

/-- One worksheet dictionary as produced by `read_ldx` (keys `name`,
`type`, `channels`); `channels` holds the `Name` attributes of the
descendant `Channel` elements (Python keeps `None` for a missing
attribute; the model defaults it to `""`). -/
structure Worksheet where
  name : String
  wtype : String
  channels : List String
  deriving DecidableEq

/-- `MotecLdxModel` (dataclass in `motec/models.py`), without the
`created`/`modified` file timestamps, which are environment data taken
from `stat` rather than from the document. -/
structure MotecLdxModel where
  workspace_name : String
  project_name : Option String
  car_name : Option String
  channels : List Channel
  worksheets : List Worksheet
  metadata : List (String × String)
  deriving DecidableEq

/-- XML construction of `write_ldx` (lines 168-207): root `Workspace` with
a `Name` attribute and optional `Project`/`Car` attributes, a `Channels`
section, a `Worksheets` section only when worksheets exist (channel
references become `ChannelRef` children), and a `Metadata` section of
`Item` children only when metadata exists. -/
def chanElem (c : Channel) : XElem :=
  XElem.mk "Channel"
    ((if truthy c.scaling then
        [("Name", c.name), ("Units", c.units), ("Source", c.source),
          ("Scaling", c.scaling.getD "")]
      else [("Name", c.name), ("Units", c.units), ("Source", c.source)]))
    none none
    (if truthy c.math then
      .cons (.mk "Math" [] (some (c.math.getD "")) none .nil) .nil
    else .nil)

def wsElem (w : Worksheet) : XElem :=
  XElem.mk "Worksheet" [("Name", w.name), ("Type", w.wtype)] none none
    (listToX (w.channels.map (fun n => .mk "ChannelRef" [("Name", n)] none none .nil)))

def write_ldx_tree (m : MotecLdxModel) : XElem :=
  let rootAttrs := [("Name", m.workspace_name)]
    ++ (if truthy m.project_name then [("Project", m.project_name.getD "")] else [])
    ++ (if truthy m.car_name then [("Car", m.car_name.getD "")] else [])
  let channelsSec : XElem :=
    .mk "Channels" [] none none (listToX (m.channels.map chanElem))
  let kids0 : XList := .cons channelsSec .nil
  let kids1 := if m.worksheets.isEmpty then kids0
    else kids0.snoc (.mk "Worksheets" [] none none
      (listToX (m.worksheets.map wsElem)))
  let kids2 := if m.metadata.isEmpty then kids1
    else kids1.snoc (.mk "Metadata" [] none none
      (listToX (m.metadata.map (fun kv =>
        .mk "Item" [("Key", kv.1), ("Value", kv.2)] none none .nil))))
  .mk "Workspace" rootAttrs none none kids2

/-- Document interpretation of `read_ldx` (lines 84-136): the workspace
name is read from an attribute named `Workspace` on the root (default
`"Default"`), channels from all `.//Channel` descendants, worksheets from
all `.//Worksheet` descendants (their channel lists from `.//Channel`
descendants of the worksheet), and metadata from the `Key`/`Value`
attributes of `.//Metadata` elements themselves, skipping empty keys. -/
def read_ldx_tree (root : XElem) : MotecLdxModel :=
  { workspace_name := getAD root.attrs "Workspace" "Default"
    project_name := getA root.attrs "Project"
    car_name := getA root.attrs "Car"
    channels := (findAllE "Channel" root).map (fun e =>
      { name := getAD e.attrs "Name" ""
        units := getAD e.attrs "Units" ""
        source := getAD e.attrs "Source" "CAN"
        scaling := getA e.attrs "Scaling"
        math := findText "Math" e })
    worksheets := (findAllE "Worksheet" root).map (fun e =>
      { name := getAD e.attrs "Name" ""
        wtype := getAD e.attrs "Type" ""
        channels := (findAllE "Channel" e).map (fun c => getAD c.attrs "Name" "") })
    metadata := (findAllE "Metadata" root).filterMap (fun e =>
      match getAD e.attrs "Key" "" with
      | "" => none
      | k => some (k, getAD e.attrs "Value" "")) }

/-- `MotecLdMetadata` (dataclass in `motec/models.py`), restricted to the
fields `read_ld_metadata` writes; `start_time` is a file timestamp, so the
model only records whether it was set. -/
structure LdMetadata where
  file_path : String
  file_size : Nat
  valid : Bool
  error : Option String
  startTimeSet : Bool
  channels : List String
  deriving DecidableEq

/-- `read_ld_metadata` (lines 247-297) over a filesystem modeled as a map
from paths to file sizes: a missing file is invalid with an explanatory
error; an existing file has its first 512 bytes read and is marked valid
exactly when its size is positive, with no minimum-size requirement (the
512-byte floor exists only in `validate_ld`). -/
def read_ld_metadata (sizes : List (String × Nat)) (path : String) : LdMetadata :=
  match sizes.lookup path with
  | none =>
    { file_path := path, file_size := 0, valid := false,
      error := some ("LD file not found: " ++ path),
      startTimeSet := false, channels := [] }
  | some n =>
    if n > 0 then
      { file_path := path, file_size := n, valid := true, error := none,
        startTimeSet := true, channels := [] }
    else
      { file_path := path, file_size := n, valid := false, error := none,
        startTimeSet := false, channels := [] }

end MotecFileService

/-! ## `backend/internal/config/settings.py` — the `Settings` singleton

The attributes below are referenced by `motec_parser.py` and
`queue_auto_applier.py` but are never defined on the `Settings` class (nor
anywhere else in the repository), so every access raises
`AttributeError`.  They are modeled as `Option` values that are `none`. -/

namespace Settings

/-- `settings.MOTEC_LD_HEADER_SIZE`: not defined on `Settings`. -/
def MOTEC_LD_HEADER_SIZE : Option Nat := none

/-- `settings.MOTEC_LDX_EXTENSION`: not defined on `Settings`. -/
def MOTEC_LDX_EXTENSION : Option String := none

/-- `settings.MOTEC_LD_EXTENSION`: not defined on `Settings`. -/
def MOTEC_LD_EXTENSION : Option String := none

/-- `settings.QUEUE_STATUS_PENDING`: not defined on `Settings`. -/
def QUEUE_STATUS_PENDING : Option String := none

end Settings

/-- `pathlib.Path(p).suffix` for a plain file name: the last dot-suffix
including the dot, `""` when the name has no dot. -/
def pySuffix (p : String) : String :=
  match ((pySplitChar '.' p.data).map (fun l => String.mk l)).reverse with
  | ext :: _ :: _ => "." ++ ext
  | _ => ""

mutual

/-- `root.find(".//" + T)`: the first strict descendant with tag `T` in
document (pre)order. -/
def findFirstE (T : String) : XElem → Option XElem
  | .mk _ _ _ _ ks => findFirstL T ks

def findFirstL (T : String) : XList → Option XElem
  | .nil => none
  | .cons e es =>
    if e.tag = T then some e
    else
      match findFirstE T e with
      | some r => some r
      | none => findFirstL T es

end

/-! ## `backend/internal/motec_parser.py` — `MotecLdParser`, `MotecParser` -/

namespace MotecLdParser

/-- `_extract_strings`: collect maximal runs of printable-ASCII bytes of
length at least `3`; each kept run is decoded and stripped before being
appended (the length test is on the raw run, before stripping). -/
def extractStringsAux : List Nat → List Char → List String
  | [], cur => if cur.length ≥ 3 then [pyStrip (String.mk cur.reverse)] else []
  | b :: rest, cur =>
    if 32 ≤ b ∧ b ≤ 126 then extractStringsAux rest (Char.ofNat b :: cur)
    else if cur.length ≥ 3 then
      pyStrip (String.mk cur.reverse) :: extractStringsAux rest []
    else extractStringsAux rest []

def extractStrings (data : List Nat) : List String :=
  extractStringsAux data []

/-- Match `\d{2}/\d{2}/\d{4}` at the head of the character list. -/
def dateAt : List Char → Option String
  | a :: b :: s1 :: c :: d :: s2 :: e :: f :: g :: h :: _ =>
    if a.isDigit ∧ b.isDigit ∧ s1 = '/' ∧ c.isDigit ∧ d.isDigit ∧ s2 = '/'
        ∧ e.isDigit ∧ f.isDigit ∧ g.isDigit ∧ h.isDigit then
      some (String.mk [a, b, s1, c, d, s2, e, f, g, h])
    else none
  | _ => none

/-- Match `\d{2}:\d{2}:\d{2}` at the head of the character list. -/
def timeAt : List Char → Option String
  | a :: b :: s1 :: c :: d :: s2 :: e :: f :: _ =>
    if a.isDigit ∧ b.isDigit ∧ s1 = ':' ∧ c.isDigit ∧ d.isDigit ∧ s2 = ':'
        ∧ e.isDigit ∧ f.isDigit then
      some (String.mk [a, b, s1, c, d, s2, e, f])
    else none
  | _ => none

/-- `re.search` leftmost-match semantics: try the pattern at each start
position from the left. -/
def searchFirst (f : List Char → Option String) : List Char → Option String
  | [] => none
  | c :: rest =>
    match f (c :: rest) with
    | some r => some r
    | none => searchFirst f rest

/-- `re.search(r"\d{2}/\d{2}/\d{4}", s)`. -/
def dateSearch (s : String) : Option String := searchFirst dateAt s.data

/-- `re.search(r"\d{2}:\d{2}:\d{2}", s)`. -/
def timeSearch (s : String) : Option String := searchFirst timeAt s.data

/-- The session-info accumulator of `_extract_session_info`. -/
structure SessionInfo where
  date : Option String
  time : Option String
  device_name : Option String
  track_name : Option String
  driver_name : Option String
  deriving DecidableEq

def emptyInfo : SessionInfo :=
  { date := none, time := none, device_name := none, track_name := none,
    driver_name := none }

/-- One iteration of the `for s in strings` loop of
`_extract_session_info` (lines 153-182). -/
def sessionStep (info : SessionInfo) (s : String) : SessionInfo :=
  let devTokens := ["SCR", "M1", "M150", "GPRP", "PDM"]
  let trackTokens := ["Track", "Raceway", "Speedway", "Circuit", "Pomona"]
  let driverExcl := ["SCR", "M1", "GPRP", "PDM", "GPS"]
  let info := if (dateSearch s).isSome ∧ info.date = none then
      { info with date := dateSearch s } else info
  let info := if (timeSearch s).isSome ∧ info.time = none then
      { info with time := timeSearch s } else info
  let info := if devTokens.any (fun x => hasSub x (pyUpper s))
      ∧ info.device_name = none then
      { info with device_name := some s } else info
  let info := if trackTokens.any (fun x => hasSub x s)
      ∧ info.track_name = none then
      { info with track_name := some s } else info
  let noSpaces := pyReplace s " " ""
  if s.length > 2 ∧ s.length < 30
      ∧ noSpaces ≠ "" ∧ noSpaces.data.all (·.isAlphanum)
      ∧ ¬((dateSearch s).isSome ∨ (timeSearch s).isSome
          ∨ driverExcl.any (fun x => hasSub x (pyUpper s)))
      ∧ (info.driver_name = none ∨ s.length > (info.driver_name.getD "").length) then
    { info with driver_name := some s }
  else info

/-- `_extract_session_info`. -/
def extractSessionInfo (strings : List String) : SessionInfo :=
  strings.foldl sessionStep emptyInfo

/-- The result dictionary of `MotecLdParser.parse`, with absent keys as
`none`. -/
structure LdParseResult where
  file_size : Nat
  date : Option String
  time : Option String
  device_name : Option String
  track_name : Option String
  driver_name : Option String
  extracted_strings : List String
  header_signature : Option (List Nat)
  parse_error : Option String
  deriving DecidableEq

/-- `MotecLdParser.parse(file_path, header_size)` over a filesystem of
byte lists.  A missing file makes `stat` raise and the handler returns a
`parse_error` result.  With no (or a falsy) `header_size` argument the
line `header_size or settings.MOTEC_LD_HEADER_SIZE` reads an attribute
that `Settings` does not define, so an `AttributeError` is caught and
reported as `parse_error`.  Otherwise the first `header_size` bytes are
scanned for strings and session info, and the first four bytes of the
file become the header signature. -/
def parse (fs : List (String × List Nat)) (path : String)
    (headerSize : Option Nat) : LdParseResult :=
  match fs.lookup path with
  | none =>
    { file_size := 0, date := none, time := none, device_name := none,
      track_name := none, driver_name := none, extracted_strings := [],
      header_signature := none,
      parse_error := some ("FileNotFoundError: " ++ path) }
  | some bs =>
    let effective : Option Nat :=
      match headerSize with
      | some n => if n ≠ 0 then some n else Settings.MOTEC_LD_HEADER_SIZE
      | none => Settings.MOTEC_LD_HEADER_SIZE
    match effective with
    | none =>
      { file_size := bs.length, date := none, time := none,
        device_name := none, track_name := none, driver_name := none,
        extracted_strings := [], header_signature := none,
        parse_error := some
          "AttributeError: Settings object has no attribute MOTEC_LD_HEADER_SIZE" }
    | some n =>
      let strings := extractStrings (bs.take n)
      let info := extractSessionInfo strings
      { file_size := bs.length, date := info.date, time := info.time,
        device_name := info.device_name, track_name := info.track_name,
        driver_name := info.driver_name,
        extracted_strings := strings.take 50,
        header_signature := if bs.length ≥ 4 then some (bs.take 4) else none,
        parse_error := none }

/-- ASCII bytes of a string, for building concrete LD headers. -/
def asciiBytes (s : String) : List Nat := s.data.map Char.toNat

end MotecLdParser

/-! ## `backend/internal/motec_translator.py` — `MotecTranslator` -/

namespace MotecTranslator

/-- The `details` dictionary collected by `MotecLdxParser.parse` (lines
34-42): the `String` children of the first `.//Details` element, keyed by
`Id` (empty ids skipped, later duplicates overwrite), or absent when
there is no `Details` section. -/
def ldxDetails (t : XElem) : Option (List (String × String)) :=
  match findFirstE "Details" t with
  | none => none
  | some d =>
    some ((MotecFileService.findAllL "String" d.kids).foldl
      (fun acc e =>
        match getAD e.attrs "Id" "" with
        | "" => acc
        | k => setA acc k (getAD e.attrs "Value" "")) [])

/-- The slice of the `MotecLdxParser.parse` result used by
`ldx_to_parameters`. -/
structure LdxData where
  details : Option (List (String × String))
  parse_error : Option String

/-- `MotecLdxParser.parse` on a file content: raw (non-XML) bytes raise
inside the `try` and yield a `parse_error` result. -/
def ldxParse : Content → LdxData
  | .raw _ => { details := none, parse_error := some "ParseError: not well-formed" }
  | .xml t => { details := ldxDetails t, parse_error := none }

/-- `MotecParser.parse_file` (lines 249-262): a missing file raises
`FileNotFoundError`; the suffix dispatch then reads
`settings.MOTEC_LDX_EXTENSION`, which `Settings` does not define, so the
call raises `AttributeError` before either parser can run. -/
def parse_file (fs : Fs) (path : String) : Except String LdxData :=
  match fs.lookup path with
  | none => .error ("FileNotFoundError: File not found: " ++ path)
  | some c =>
    match Settings.MOTEC_LDX_EXTENSION with
    | none =>
      .error "AttributeError: Settings object has no attribute MOTEC_LDX_EXTENSION"
    | some ext =>
      if pyLower (pySuffix path) = pyLower ext then .ok (ldxParse c)
      else
        match Settings.MOTEC_LD_EXTENSION with
        | none =>
          .error "AttributeError: Settings object has no attribute MOTEC_LD_EXTENSION"
        | some _ => .error ("ValueError: Unsupported file type: " ++ pySuffix path)

/-- One parameter dictionary emitted by `ldx_to_parameters`. -/
structure ParamRecord where
  parameter_name : String
  subteam : String
  current_value : String
  source : String
  original_id : String

/-- `MotecTranslator.ldx_to_parameters` (lines 30-163).  Every body
failure is re-raised as `ValueError` by the outer handler.  When parsing
succeeds and details are present and included, building the first record
dictionary evaluates the undefined name `param_subteam` and the resulting
`NameError` propagates to the outer handler; the math-item and descriptor
blocks evaluate the same undefined name inside their own
`try/except: pass`, so they append no record.  Consequently the function
either raises or returns an empty list. -/
def ldx_to_parameters (fs : Fs) (path : String)
    (includeDetails includeMathItems : Bool) : Except String (List ParamRecord) :=
  match parse_file fs path with
  | .error e => .error ("ValueError: Error converting LDX to parameters: " ++ e)
  | .ok d =>
    match d.parse_error with
    | some pe =>
      .error ("ValueError: Error converting LDX to parameters: Error parsing LDX file: " ++ pe)
    | none =>
      if includeDetails ∧ (d.details.getD []).length ≠ 0 then
        .error
          "ValueError: Error converting LDX to parameters: NameError: name param_subteam is not defined"
      else
        .ok ([] : List ParamRecord)

end MotecTranslator

/-! ## `backend/internal/queue_auto_applier.py` -/

namespace QueueAutoApplier

/-- One pending row of the `parameter_queue` store, in submission order. -/
structure QueueItem where
  parameter_name : String
  new_value : String
  comment : Option String
  form_id : String
  subteam : String
  submitted_by : String

/-- The result dictionary of `auto_apply_queued_changes_to_file`. -/
structure ApplyResult where
  applied_count : Nat
  failed_count : Nat
  applied_forms : List String
  failed : List (String × String)
  message : String
  deriving DecidableEq

/-- The early-return dictionary for non-LDX targets. -/
def onlyLdxResult : ApplyResult :=
  { applied_count := 0, failed_count := 0, applied_forms := [], failed := [],
    message := "Only LDX files can be updated with queued changes" }

/-- `auto_apply_queued_changes_to_file` (lines 13-142).  For a missing
file the suffix check short-circuits and the early dictionary is
returned; for an existing file the check evaluates
`settings.MOTEC_LDX_EXTENSION`, which `Settings` does not define, so the
call raises `AttributeError` before any queue item is examined (and the
subsequent `get_queue(status=settings.QUEUE_STATUS_PENDING, ...)` would
raise for the same reason), leaving the per-item loop of lines 60-134
unreachable. -/
def auto_apply_queued_changes_to_file (fs : Fs) (queue : List QueueItem)
    (path : String) : Except String ApplyResult :=
  if (fs.lookup path).isNone then .ok onlyLdxResult
  else
    match Settings.MOTEC_LDX_EXTENSION with
    | none =>
      .error "AttributeError: Settings object has no attribute MOTEC_LDX_EXTENSION"
    | some ext =>
      if pyLower (pySuffix path) ≠ pyLower ext then .ok onlyLdxResult
      else
        match Settings.QUEUE_STATUS_PENDING with
        | none =>
          .error "AttributeError: Settings object has no attribute QUEUE_STATUS_PENDING"
        | some _ =>
          .ok { applied_count := 0, failed_count := queue.length,
                applied_forms := [], failed := [],
                message := "unreachable in this repository" }

end QueueAutoApplier

/-! ## Concrete fixtures used by witnesses and counterexamples -/

namespace Fixtures

/-- A small LDX workspace tree with one `Details` string. -/
def t0 : XElem :=
  .mk "Workspace" [] none none
    (.cons (.mk "Details" [] none none
      (.cons (.mk "String" [("Id", "Track"), ("Value", "Old")] none none .nil) .nil))
      .nil)

/-- A filesystem holding just that LDX file. -/
def fs0 : Fs := [("w.ldx", .xml t0)]

/-- The same filesystem with a pre-existing backup sibling. -/
def fs0bak : Fs := [("w.ldx", .xml t0), ("w.ldx.bak", .raw "old backup")]

/-- A queue item for the reconciliation scenario. -/
def qItem : QueueAutoApplier.QueueItem :=
  { parameter_name := "brake_bias", new_value := "54.0", comment := none,
    form_id := "f1", subteam := "vd", submitted_by := "alex" }

/-- An LD file whose printable header contains the date, time and device
tokens of the specification scenario. -/
def ldFs : List (String × List Nat) :=
  [("s.ld", MotecLdParser.asciiBytes "12/08/2024 14:33:02 M150")]

/-- A model whose workspace name, metadata and worksheet channel list are
all nonempty, exercising every lossy leg of the LDX round trip. -/
def m0 : MotecFileService.MotecLdxModel :=
  { workspace_name := "WS2025"
    project_name := some "FSAE"
    car_name := some "Car1"
    channels := [{ name := "Speed", units := "kph", source := "CAN",
                   scaling := none, math := some "x*2" }]
    worksheets := [{ name := "Main", wtype := "graph", channels := ["Speed"] }]
    metadata := [("Session", "1")] }

end Fixtures

end USCRacing

namespace USCRacing

/-! # Theorems -/

open MotecLdxUpdater MotecFileService MotecTranslator QueueAutoApplier Fixtures

/-- **C10** (failing evaluation).  `update_parameter_in_ldx` called on a
path that does not exist propagates a `TypeError` instead of returning
`False`: `_get_file_stats` returns an error dictionary without a `hash`
key, and the logging line 76 subscripts `None` before the `try` block is
entered. -/
theorem c10_missing_file_raises :
    (update_parameter_in_ldx [] [] "missing.ldx" "brake_bias" "54.0" none).result
      = .raised "TypeError: NoneType object is not subscriptable"
      ∧ (update_parameter_in_ldx [] [] "missing.ldx" "brake_bias" "54.0" none).events = [] := by
  constructor <;> rfl

/-- **C4** (failing evaluation).  `ldx_to_parameters` raises for every
file: the inner `MotecParser.parse_file` reads
`settings.MOTEC_LDX_EXTENSION`, which the `Settings` class never defines,
so the call fails with a `ValueError` wrapping the `AttributeError` even
though the file exists, parses, and contains a `Details` entry. -/
theorem c4_translator_always_raises :
    ldx_to_parameters fs0 "w.ldx" true true
      = .error
        "ValueError: Error converting LDX to parameters: AttributeError: Settings object has no attribute MOTEC_LDX_EXTENSION"
      ∧ (ldxDetails t0).getD [] = [("Track", "Old")] := by
  constructor <;> rfl

/-- **C8** (failing evaluation).  `auto_apply_queued_changes_to_file` on an
existing `.ldx` file raises `AttributeError` at the eligibility check
(line 35) before looking at any queue item, because `Settings` defines no
`MOTEC_LDX_EXTENSION`. -/
theorem c8_applier_raises_before_loop :
    auto_apply_queued_changes_to_file [("car1.ldx", .xml t0)] [qItem] "car1.ldx"
      = .error "AttributeError: Settings object has no attribute MOTEC_LDX_EXTENSION" := by
  rfl

/-- **C7** (failing evaluation).  With no header-window argument,
`MotecLdParser.parse` evaluates `settings.MOTEC_LD_HEADER_SIZE`, which
`Settings` never defines, so it returns a `parse_error` result with no
extracted date/time/device — even for a header containing
`"12/08/2024"`, `"14:33:02"` and `"M150"` — while the same call with an
explicit 2048-byte window extracts all three. -/
theorem c7_no_default_header_window :
    (MotecLdParser.parse ldFs "s.ld" none).parse_error
        = some "AttributeError: Settings object has no attribute MOTEC_LD_HEADER_SIZE"
      ∧ (MotecLdParser.parse ldFs "s.ld" none).date = none
      ∧ (MotecLdParser.parse ldFs "s.ld" (some 2048)).date = some "12/08/2024"
      ∧ (MotecLdParser.parse ldFs "s.ld" (some 2048)).time = some "14:33:02"
      ∧ (MotecLdParser.parse ldFs "s.ld" (some 2048)).device_name
          = some "12/08/2024 14:33:02 M150" := by
  refine ⟨rfl, rfl, ?_, ?_, ?_⟩ <;> decide

/-- **C6** (counterexample).  An existing 10-byte LD file — far below the
512-byte floor the claim requires to be rejected — is reported
`valid = true` by `read_ld_metadata`, which only requires a positive
size. -/
theorem c6_counterexample :
    (read_ld_metadata [("a.ld", 10)] "a.ld").valid = true ∧ 10 < 512 := by
  constructor <;> decide

/-- **C6 amended**: `read_ld_metadata` marks a missing file invalid with a
non-empty explanatory error; an existing file is valid exactly when its
size is positive (no 512-byte minimum — that check exists only in
`validate_ld`), and existing files never carry an error. -/
theorem c6_amended (sizes : List (String × Nat)) (p : String) :
    (sizes.lookup p = none →
        (read_ld_metadata sizes p).valid = false
          ∧ (read_ld_metadata sizes p).error = some ("LD file not found: " ++ p)
          ∧ ("LD file not found: " ++ p) ≠ "")
      ∧ (∀ n, sizes.lookup p = some n →
          ((read_ld_metadata sizes p).valid = true ↔ 0 < n)
            ∧ (read_ld_metadata sizes p).error = none) := by
  constructor
  · intro h
    refine ⟨?_, ?_, ?_⟩
    · simp [read_ld_metadata, h]
    · simp [read_ld_metadata, h]
    · intro hcontra
      have := congrArg String.length hcontra
      simp [String.length_append] at this
      exact absurd this.1 (by decide)
  · intro n h
    constructor
    · by_cases hn : n > 0 <;> simp [read_ld_metadata, h, hn]
    · by_cases hn : n > 0 <;> simp [read_ld_metadata, h, hn]

/-! ### Filesystem and path lemmas -/

theorem Fs.lookup_set_eq (fs : Fs) (p : String) (c : Content) :
    (fs.set p c).lookup p = some c := by
  induction fs with
  | nil => simp [Fs.set, Fs.lookup]
  | cons kv rest ih =>
    obtain ⟨q, c'⟩ := kv
    by_cases hq : q = p <;> simp [Fs.set, Fs.lookup, hq, ih]

theorem Fs.lookup_set_ne (fs : Fs) (p q : String) (c : Content) (h : p ≠ q) :
    (fs.set p c).lookup q = fs.lookup q := by
  induction fs with
  | nil => simp [Fs.set, Fs.lookup, h]
  | cons kv rest ih =>
    obtain ⟨r, c'⟩ := kv
    by_cases hr : r = p
    · subst hr
      simp [Fs.set, Fs.lookup, h, ih]
    · by_cases hrq : r = q <;> simp [Fs.set, Fs.lookup, hr, hrq, Ne.symm h, ih]

theorem Fs.lookup_remove_ne (fs : Fs) (p q : String) (h : p ≠ q) :
    (fs.remove p).lookup q = fs.lookup q := by
  induction fs with
  | nil => simp [Fs.remove, Fs.lookup]
  | cons kv rest ih =>
    obtain ⟨r, c'⟩ := kv
    by_cases hr : r = p
    · subst hr
      simp [Fs.remove, Fs.lookup, h, ih]
    · by_cases hrq : r = q <;> simp [Fs.remove, Fs.lookup, hr, hrq, Ne.symm h, ih]

theorem string_append_ne_self (p s : String) (h : s ≠ "") : p ++ s ≠ p := by
  intro hcontra
  have hlen := congrArg String.length hcontra
  rw [String.length_append] at hlen
  have h0 : s.length ≠ 0 := by
    intro h0
    apply h
    cases s with
    | mk d =>
      cases d with
      | nil => rfl
      | cons a l => simp [String.length] at h0
  omega

theorem tmpPath_ne (p : String) : tmpPath p ≠ p :=
  string_append_ne_self p ".tmp" (by decide)

theorem bakPath_ne (p : String) : bakPath p ≠ p :=
  string_append_ne_self p ".bak" (by decide)

theorem tmpPath_ne_bakPath (p : String) : tmpPath p ≠ bakPath p := by
  intro hcontra
  have hd := congrArg String.data hcontra
  simp only [tmpPath, bakPath, String.data_append] at hd
  have := List.append_cancel_left hd
  simp at this

/-! ### Shape of a successful update run -/

theorem update_success_shape (fs : Fs) (cat : Catalog) (p n v : String)
    (c : Option String)
    (hok : (update_parameter_in_ldx fs cat p n v c).result = .ok true) :
    ∃ t t', fs.lookup p = some (.xml t)
      ∧ dispatchMutate cat n v c t = (true, t')
      ∧ (update_parameter_in_ldx fs cat p n v c).events
          = (if (fs.lookup (bakPath p)).isSome then ([] : List FsEvent)
              else [.backup p (bakPath p)])
            ++ [.writeTmp (tmpPath p) (.xml (indentElem " " 0 t')),
                .rename (tmpPath p) p, .verifyOpen p]
      ∧ (update_parameter_in_ldx fs cat p n v c).fsAfter
          = applyEvents fs (update_parameter_in_ldx fs cat p n v c).events := by
  cases hfs : fs.lookup p with
  | none => simp [update_parameter_in_ldx, hfs] at hok
  | some ct =>
    cases ct with
    | raw s => simp [update_parameter_in_ldx, hfs] at hok
    | xml t =>
      cases hdisp : dispatchMutate cat n v c t with
      | mk b t' =>
        cases b with
        | false => simp [update_parameter_in_ldx, hfs, hdisp] at hok
        | true =>
          refine ⟨t, t', rfl, hdisp, ?_, ?_⟩ <;>
            simp [update_parameter_in_ldx, hfs, hdisp]

/-- **C1**: when a patch succeeds, the commit is a single rename event
(`os.replace` of the staged temp file onto the original path, never a
copy+delete); every replayed prefix of the disk-operation trace that stops
before the rename leaves the original path bound to its pre-mutation
content; at the moment of the rename the temp path holds the complete
staged document, which is exactly what the original path holds afterwards;
and at every instant the original path holds either the full old content
or the full new content — never anything partial. -/
theorem c1_commit_is_atomic_rename (fs : Fs) (cat : Catalog) (p n v : String)
    (c : Option String)
    (hok : (update_parameter_in_ldx fs cat p n v c).result = .ok true) :
    ∃ i st,
      (update_parameter_in_ldx fs cat p n v c).events.get? i
          = some (.rename (tmpPath p) p)
        ∧ (∀ j e, (update_parameter_in_ldx fs cat p n v c).events.get? j = some e →
            e.isRename = true → j = i ∧ e = .rename (tmpPath p) p)
        ∧ (applyEvents fs ((update_parameter_in_ldx fs cat p n v c).events.take i)).lookup
            (tmpPath p) = some st
        ∧ (update_parameter_in_ldx fs cat p n v c).fsAfter.lookup p = some st
        ∧ (∀ j, j ≤ i →
            (applyEvents fs ((update_parameter_in_ldx fs cat p n v c).events.take j)).lookup p
              = fs.lookup p)
        ∧ (∀ j,
            (applyEvents fs ((update_parameter_in_ldx fs cat p n v c).events.take j)).lookup p
                = fs.lookup p
              ∨ (applyEvents fs ((update_parameter_in_ldx fs cat p n v c).events.take j)).lookup p
                = some st) := by
  obtain ⟨t, t', hfs, hdisp, hev, hfsa⟩ := update_success_shape fs cat p n v c hok
  by_cases hbak : (fs.lookup (bakPath p)).isSome
  · rw [if_pos hbak] at hev
    simp only [List.nil_append] at hev
    refine ⟨1, .xml (indentElem " " 0 t'), ?_, ?_, ?_, ?_, ?_, ?_⟩
    · rw [hev]; rfl
    · intro j e hj hr
      rw [hev] at hj
      match j with
      | 0 => simp at hj; rw [← hj] at hr; simp [FsEvent.isRename] at hr
      | 1 => simp at hj; exact ⟨rfl, hj.symm⟩
      | 2 => simp at hj; rw [← hj] at hr; simp [FsEvent.isRename] at hr
      | j + 3 => simp at hj
    · rw [hev]
      simp [applyEvents, applyEvent, Fs.lookup_set_eq]
    · rw [hfsa, hev]
      simp [applyEvents, applyEvent, Fs.lookup_set_eq]
    · intro j hj
      rw [hev]
      match j with
      | 0 => rfl
      | 1 =>
        simp [applyEvents, applyEvent]
        exact Fs.lookup_set_ne fs (tmpPath p) p _ (tmpPath_ne p)
      | j + 2 => omega
    · intro j
      rw [hev]
      match j with
      | 0 => left; rfl
      | 1 =>
        left
        simp [applyEvents, applyEvent]
        exact Fs.lookup_set_ne fs (tmpPath p) p _ (tmpPath_ne p)
      | j + 2 =>
        right
        have htake : ([FsEvent.writeTmp (tmpPath p) (.xml (indentElem " " 0 t')),
            .rename (tmpPath p) p, .verifyOpen p].take (j + 2)).take 2
            = [FsEvent.writeTmp (tmpPath p) (.xml (indentElem " " 0 t')),
              .rename (tmpPath p) p].take 2 := by
          match j with
          | 0 => rfl
          | 1 => rfl
          | j + 2 => rfl
        match j with
        | 0 => simp [applyEvents, applyEvent, Fs.lookup_set_eq]
        | 1 => simp [applyEvents, applyEvent, Fs.lookup_set_eq]
        | j + 2 => simp [applyEvents, applyEvent, Fs.lookup_set_eq]
  · rw [if_neg hbak] at hev
    have hback : applyEvent fs (FsEvent.backup p (bakPath p)) = fs.set (bakPath p) (.xml t) := by
      simp [applyEvent, hfs]
    refine ⟨2, .xml (indentElem " " 0 t'), ?_, ?_, ?_, ?_, ?_, ?_⟩
    · rw [hev]; rfl
    · intro j e hj hr
      rw [hev] at hj
      match j with
      | 0 => simp at hj; rw [← hj] at hr; simp [FsEvent.isRename] at hr
      | 1 => simp at hj; rw [← hj] at hr; simp [FsEvent.isRename] at hr
      | 2 => simp at hj; exact ⟨rfl, hj.symm⟩
      | 3 => simp at hj; rw [← hj] at hr; simp [FsEvent.isRename] at hr
      | j + 4 => simp at hj
    · rw [hev]
      simp [applyEvents, applyEvent, hfs, Fs.lookup_set_eq]
    · rw [hfsa, hev]
      simp [applyEvents, applyEvent, hfs, Fs.lookup_set_eq]
    · intro j hj
      rw [hev]
      match j with
      | 0 => rfl
      | 1 =>
        simp [applyEvents, applyEvent, hfs]
        rw [Fs.lookup_set_ne fs (bakPath p) p _ (bakPath_ne p)]
        exact hfs
      | 2 =>
        simp [applyEvents, applyEvent, hfs]
        rw [Fs.lookup_set_ne _ (tmpPath p) p _ (tmpPath_ne p)]
        rw [Fs.lookup_set_ne fs (bakPath p) p _ (bakPath_ne p)]
        exact hfs
      | j + 3 => omega
    · intro j
      rw [hev]
      match j with
      | 0 => left; rfl
      | 1 =>
        left
        simp [applyEvents, applyEvent, hfs]
        rw [Fs.lookup_set_ne fs (bakPath p) p _ (bakPath_ne p)]
        exact hfs
      | 2 =>
        left
        simp [applyEvents, applyEvent, hfs]
        rw [Fs.lookup_set_ne _ (tmpPath p) p _ (tmpPath_ne p)]
        rw [Fs.lookup_set_ne fs (bakPath p) p _ (bakPath_ne p)]
        exact hfs
      | 3 => right; simp [applyEvents, applyEvent, hfs, Fs.lookup_set_eq]
      | j + 4 => right; simp [applyEvents, applyEvent, hfs, Fs.lookup_set_eq]

/-- Witness for `c1_commit_is_atomic_rename`: a concrete successful
details patch. -/
theorem c1_witness :
    (update_parameter_in_ldx fs0 [] "w.ldx" "ldx_details_Track" "Laguna" none).result
        = .ok true
      ∧ ∃ i st,
        (update_parameter_in_ldx fs0 [] "w.ldx" "ldx_details_Track" "Laguna" none).events.get? i
            = some (.rename (tmpPath "w.ldx") "w.ldx")
          ∧ (∀ j e,
              (update_parameter_in_ldx fs0 [] "w.ldx" "ldx_details_Track" "Laguna" none).events.get? j
                  = some e → e.isRename = true →
                j = i ∧ e = .rename (tmpPath "w.ldx") "w.ldx")
          ∧ (applyEvents fs0
              ((update_parameter_in_ldx fs0 [] "w.ldx" "ldx_details_Track" "Laguna" none).events.take i)).lookup
              (tmpPath "w.ldx") = some st
          ∧ (update_parameter_in_ldx fs0 [] "w.ldx" "ldx_details_Track" "Laguna" none).fsAfter.lookup "w.ldx"
              = some st
          ∧ (∀ j, j ≤ i →
              (applyEvents fs0
                ((update_parameter_in_ldx fs0 [] "w.ldx" "ldx_details_Track" "Laguna" none).events.take j)).lookup
                "w.ldx" = fs0.lookup "w.ldx")
          ∧ (∀ j,
              (applyEvents fs0
                ((update_parameter_in_ldx fs0 [] "w.ldx" "ldx_details_Track" "Laguna" none).events.take j)).lookup
                "w.ldx" = fs0.lookup "w.ldx"
              ∨ (applyEvents fs0
                ((update_parameter_in_ldx fs0 [] "w.ldx" "ldx_details_Track" "Laguna" none).events.take j)).lookup
                "w.ldx" = some st) :=
  ⟨by decide, c1_commit_is_atomic_rename fs0 [] "w.ldx" "ldx_details_Track" "Laguna" none (by decide)⟩

/-- **C2** (counterexample).  In a concrete successful details patch the
claim "Verify runs after StageWrite and before Commit, re-opening the
temporary staged file" is false: no verification read of the temp file
ever precedes the rename — the only verification read happens after the
rename and targets the original path. -/
theorem c2_counterexample :
    (update_parameter_in_ldx fs0bak [] "w.ldx" "ldx_details_Track" "Laguna" none).result
        = .ok true
      ∧ ¬(∃ i j, i < j
        ∧ (update_parameter_in_ldx fs0bak [] "w.ldx" "ldx_details_Track" "Laguna" none).events.get? i
            = some (.verifyOpen (tmpPath "w.ldx"))
        ∧ (update_parameter_in_ldx fs0bak [] "w.ldx" "ldx_details_Track" "Laguna" none).events.get? j
            = some (.rename (tmpPath "w.ldx") "w.ldx")) := by
  constructor
  · decide
  · rintro ⟨i, j, hij, hi, hj⟩
    obtain ⟨d, hd⟩ : ∃ d,
        (update_parameter_in_ldx fs0bak [] "w.ldx" "ldx_details_Track" "Laguna" none).events
          = [.writeTmp (tmpPath "w.ldx") d, .rename (tmpPath "w.ldx") "w.ldx",
              .verifyOpen "w.ldx"] := ⟨_, rfl⟩
    rw [hd] at hi
    match i with
    | 0 => simp at hi
    | 1 => simp at hi
    | 2 =>
      simp at hi
      exact absurd hi.symm (tmpPath_ne "w.ldx")
    | i + 3 => simp at hi

/-- **C2 amended**: in every successful patch the verification step runs
*after* the commit, not before it: the trace contains the rename strictly
before the verification read, the verification re-opens the committed
original path (never the temporary file), and — the commit having already
happened — its outcome cannot block the commit or change the `True`
return. -/
theorem c2_verify_after_commit (fs : Fs) (cat : Catalog) (p n v : String)
    (c : Option String)
    (hok : (update_parameter_in_ldx fs cat p n v c).result = .ok true) :
    ∃ i j, i < j
      ∧ (update_parameter_in_ldx fs cat p n v c).events.get? i
          = some (.rename (tmpPath p) p)
      ∧ (update_parameter_in_ldx fs cat p n v c).events.get? j
          = some (.verifyOpen p)
      ∧ (∀ k q, (update_parameter_in_ldx fs cat p n v c).events.get? k
          = some (.verifyOpen q) → q = p) := by
  obtain ⟨t, t', hfs, hdisp, hev, hfsa⟩ := update_success_shape fs cat p n v c hok
  by_cases hbak : (fs.lookup (bakPath p)).isSome
  · rw [if_pos hbak] at hev
    simp only [List.nil_append] at hev
    refine ⟨1, 2, by omega, by rw [hev]; rfl, by rw [hev]; rfl, ?_⟩
    intro k q hk
    rw [hev] at hk
    match k with
    | 0 => simp at hk
    | 1 => simp at hk
    | 2 => simpa using hk.symm
    | k + 3 => simp at hk
  · rw [if_neg hbak] at hev
    refine ⟨2, 3, by omega, by rw [hev]; rfl, by rw [hev]; rfl, ?_⟩
    intro k q hk
    rw [hev] at hk
    match k with
    | 0 => simp at hk
    | 1 => simp at hk
    | 2 => simp at hk
    | 3 => simpa using hk.symm
    | k + 4 => simp at hk

/-- Witness for `c2_verify_after_commit` at the concrete successful
patch of `c2_counterexample`. -/
theorem c2_verify_after_commit_witness :
    (update_parameter_in_ldx fs0bak [] "w.ldx" "ldx_details_Track" "Laguna" none).result
        = .ok true
      ∧ ∃ i j, i < j
        ∧ (update_parameter_in_ldx fs0bak [] "w.ldx" "ldx_details_Track" "Laguna" none).events.get? i
            = some (.rename (tmpPath "w.ldx") "w.ldx")
        ∧ (update_parameter_in_ldx fs0bak [] "w.ldx" "ldx_details_Track" "Laguna" none).events.get? j
            = some (.verifyOpen "w.ldx")
        ∧ (∀ k q,
            (update_parameter_in_ldx fs0bak [] "w.ldx" "ldx_details_Track" "Laguna" none).events.get? k
              = some (.verifyOpen q) → q = "w.ldx") :=
  ⟨by decide,
    c2_verify_after_commit fs0bak [] "w.ldx" "ldx_details_Track" "Laguna" none (by decide)⟩

/-- **C5** (counterexample).  With an empty parameter catalog, patching
`"brake_bias"` (no structural prefix, no catalog entry) into a concrete
LDX file does *not* fail with a not-found result and does *not* leave the
file untouched: the call returns `True`, performs four disk operations
(backup, staging write, rename, verification read), creates the `.bak`
sibling, and rewrites the file with an added `Layers/Details`
documentation entry. -/
theorem c5_counterexample :
    (update_parameter_in_ldx fs0 [] "w.ldx" "brake_bias" "54.0" none).result = .ok true
      ∧ (update_parameter_in_ldx fs0 [] "w.ldx" "brake_bias" "54.0" none).events.length = 4
      ∧ (update_parameter_in_ldx fs0 [] "w.ldx" "brake_bias" "54.0" none).fsAfter.lookup
          (bakPath "w.ldx") = some (.xml t0)
      ∧ (update_parameter_in_ldx fs0 [] "w.ldx" "brake_bias" "54.0" none).fsAfter.lookup
          "w.ldx" ≠ some (.xml t0) := by
  refine ⟨by decide, by decide, rfl, ?_⟩
  intro h
  exact absurd
    (congrArg (fun o => match o with
      | some (.xml t) => XList.len t.kids
      | _ => 0) h)
    (by decide)

/-- **C5 amended**: for a parameter name matching none of the three
structural prefixes and absent from the catalog, the updater does not
fail: `_update_or_add_details_documentation` falls back to the
title-cased parameter name as a display name, documents the value in a
`Details` string (creating the `Layers`/`Details` containers when
absent), and the patch commits — the call returns `True` and the file is
rewritten with the documented tree. -/
theorem c5_generic_fallback_documents (fs : Fs) (cat : Catalog) (p n v : String)
    (c : Option String) (t : XElem) (hfs : fs.lookup p = some (.xml t))
    (h1 : pyStartsWith n "ldx_details_" = false)
    (h2 : pyStartsWith n "ldx_math_" = false)
    (h3 : pyStartsWith n "ldx_desc_" = false)
    (hcat : catLookup cat n = none) :
    (update_parameter_in_ldx fs cat p n v c).result = .ok true
      ∧ (update_parameter_in_ldx fs cat p n v c).fsAfter.lookup p
          = some (.xml (indentElem " " 0
              (docUpd (docNameValue cat n v c).1 (docNameValue cat n v c).2 t)))
      ∧ (docNameValue cat n v c).1 = pyTitle (pyReplace n "_" " ") := by
  have hdisp : dispatchMutate cat n v c t
      = (true, docUpd (docNameValue cat n v c).1 (docNameValue cat n v c).2 t) := by
    simp [dispatchMutate, h1, h2, h3]
  refine ⟨by simp [update_parameter_in_ldx, hfs, hdisp], ?_, ?_⟩
  · by_cases hbak : (fs.lookup (bakPath p)).isSome <;>
      simp [update_parameter_in_ldx, hfs, hdisp, hbak, applyEvents, applyEvent,
        Fs.lookup_set_eq]
  · cases c with
    | none => simp [docNameValue, hcat]
    | some cc => by_cases hc : pyStrip cc = "" <;> simp [docNameValue, hcat, hc]

/-- Witness for `c5_generic_fallback_documents` at the concrete input of
`c5_counterexample`. -/
theorem c5_generic_fallback_witness :
    (update_parameter_in_ldx fs0 [] "w.ldx" "brake_bias" "54.0" none).result = .ok true
      ∧ (update_parameter_in_ldx fs0 [] "w.ldx" "brake_bias" "54.0" none).fsAfter.lookup "w.ldx"
          = some (.xml (indentElem " " 0
              (docUpd (docNameValue [] "brake_bias" "54.0" none).1
                (docNameValue [] "brake_bias" "54.0" none).2 t0)))
      ∧ (docNameValue [] "brake_bias" "54.0" none).1
          = pyTitle (pyReplace "brake_bias" "_" " ") :=
  c5_generic_fallback_documents fs0 [] "w.ldx" "brake_bias" "54.0" none t0
    rfl (by decide) (by decide) (by decide) rfl

/-! ### LDX round trip (C3) -/

theorem getA_append_some (l1 l2 : List (String × String)) (k v : String)
    (h : getA l1 k = some v) : getA (l1 ++ l2) k = some v := by
  induction l1 with
  | nil => simp [getA] at h
  | cons kv rest ih =>
    obtain ⟨k', v'⟩ := kv
    by_cases hk : k' = k
    · simpa [getA, hk] using by simpa [getA, hk] using h
    · simp [getA, hk] at h ⊢
      exact ih h

theorem getA_append_none (l1 l2 : List (String × String)) (k : String)
    (h : getA l1 k = none) : getA (l1 ++ l2) k = getA l2 k := by
  induction l1 with
  | nil => simp [getA]
  | cons kv rest ih =>
    obtain ⟨k', v'⟩ := kv
    by_cases hk : k' = k
    · simp [getA, hk] at h
    · simp [getA, hk] at h ⊢
      exact ih h

theorem findAllL_snoc (T : String) (ks : XList) (x : XElem) :
    MotecFileService.findAllL T (ks.snoc x)
      = MotecFileService.findAllL T ks
        ++ ((if x.tag = T then [x] else []) ++ MotecFileService.findAllE T x) := by
  match ks with
  | .nil => simp [XList.snoc, MotecFileService.findAllL]
  | .cons e es =>
    have ih := findAllL_snoc T es x
    simp [XList.snoc, MotecFileService.findAllL, ih]

theorem findAllE_chanElem (T : String) (hM : T ≠ "Math") (c : Channel) :
    MotecFileService.findAllE T (chanElem c) = [] := by
  have hM' : ¬("Math" = T) := fun h => hM h.symm
  cases hm : truthy c.math <;>
    simp [chanElem, hm, MotecFileService.findAllE, MotecFileService.findAllL,
      XElem.tag, hM']

theorem findAllL_chanList (T : String) (hT : T ≠ "Channel") (hM : T ≠ "Math")
    (l : List Channel) :
    MotecFileService.findAllL T (listToX (l.map chanElem)) = [] := by
  induction l with
  | nil => simp [listToX, MotecFileService.findAllL]
  | cons c rest ih =>
    have hT' : ¬("Channel" = T) := fun h => hT h.symm
    have hc := findAllE_chanElem T hM c
    simp only [List.map_cons, listToX, MotecFileService.findAllL] at ih ⊢
    simp [chanElem, XElem.tag, hT', ih]
    simpa [chanElem] using hc

theorem findAllL_chanList_self (l : List Channel) :
    MotecFileService.findAllL "Channel" (listToX (l.map chanElem)) = l.map chanElem := by
  induction l with
  | nil => simp [listToX, MotecFileService.findAllL]
  | cons c rest ih =>
    have hc := findAllE_chanElem "Channel" (by decide) c
    simp only [List.map_cons, listToX, MotecFileService.findAllL] at ih ⊢
    simp [chanElem, XElem.tag] at hc ⊢
    simp [hc, ih]

theorem findAllL_refList (T : String) (hT : T ≠ "ChannelRef") (l : List String) :
    MotecFileService.findAllL T
      (listToX (l.map (fun n => XElem.mk "ChannelRef" [("Name", n)] none none .nil))) = [] := by
  induction l with
  | nil => simp [listToX, MotecFileService.findAllL]
  | cons n rest ih =>
    have hT' : ¬("ChannelRef" = T) := fun h => hT h.symm
    simp [listToX, MotecFileService.findAllL, MotecFileService.findAllE,
      XElem.tag, hT', ih]

theorem findAllE_wsElem (T : String) (hR : T ≠ "ChannelRef") (w : Worksheet) :
    MotecFileService.findAllE T (wsElem w) = [] := by
  simpa [wsElem, MotecFileService.findAllE] using findAllL_refList T hR w.channels

theorem findAllL_wsList (T : String) (hT : T ≠ "Worksheet") (hR : T ≠ "ChannelRef")
    (l : List Worksheet) :
    MotecFileService.findAllL T (listToX (l.map wsElem)) = [] := by
  induction l with
  | nil => simp [listToX, MotecFileService.findAllL]
  | cons w rest ih =>
    have hT' : ¬("Worksheet" = T) := fun h => hT h.symm
    have hw := findAllE_wsElem T hR w
    simp only [List.map_cons, listToX, MotecFileService.findAllL] at ih ⊢
    simp [wsElem, XElem.tag, hT', ih]
    simpa [wsElem] using hw

theorem findAllL_wsList_self (l : List Worksheet) :
    MotecFileService.findAllL "Worksheet" (listToX (l.map wsElem)) = l.map wsElem := by
  induction l with
  | nil => simp [listToX, MotecFileService.findAllL]
  | cons w rest ih =>
    have hw := findAllE_wsElem "Worksheet" (by decide) w
    simp only [List.map_cons, listToX, MotecFileService.findAllL] at ih ⊢
    simp [wsElem, XElem.tag] at hw ⊢
    simp [hw, ih]

theorem findAllL_itemList (T : String) (hT : T ≠ "Item") (l : List (String × String)) :
    MotecFileService.findAllL T
      (listToX (l.map (fun kv => XElem.mk "Item" [("Key", kv.1), ("Value", kv.2)] none none .nil)))
      = [] := by
  induction l with
  | nil => simp [listToX, MotecFileService.findAllL]
  | cons kv rest ih =>
    have hT' : ¬("Item" = T) := fun h => hT h.symm
    simp [listToX, MotecFileService.findAllL, MotecFileService.findAllE,
      XElem.tag, hT', ih]

theorem write_channels (m : MotecLdxModel) :
    MotecFileService.findAllE "Channel" (write_ldx_tree m) = m.channels.map chanElem := by
  by_cases hws : m.worksheets.isEmpty <;> by_cases hmd : m.metadata.isEmpty <;>
    simp [write_ldx_tree, MotecFileService.findAllE, MotecFileService.findAllL,
      hws, hmd, findAllL_snoc, XElem.tag,
      findAllL_chanList_self, findAllL_wsList, findAllL_itemList]

theorem write_worksheets (m : MotecLdxModel) :
    MotecFileService.findAllE "Worksheet" (write_ldx_tree m) = m.worksheets.map wsElem := by
  by_cases hws : m.worksheets.isEmpty <;> by_cases hmd : m.metadata.isEmpty <;>
    simp [write_ldx_tree, MotecFileService.findAllE, MotecFileService.findAllL,
      hws, hmd, findAllL_snoc, XElem.tag,
      findAllL_chanList, findAllL_wsList_self, findAllL_itemList] <;>
    simp [List.isEmpty_iff.mp hws]

theorem write_metadata_sec (m : MotecLdxModel) :
    MotecFileService.findAllE "Metadata" (write_ldx_tree m)
      = if m.metadata.isEmpty then [] else
          [XElem.mk "Metadata" [] none none
            (listToX (m.metadata.map (fun kv =>
              XElem.mk "Item" [("Key", kv.1), ("Value", kv.2)] none none .nil)))] := by
  by_cases hws : m.worksheets.isEmpty <;> by_cases hmd : m.metadata.isEmpty <;>
    simp [write_ldx_tree, MotecFileService.findAllE, MotecFileService.findAllL,
      hws, hmd, findAllL_snoc, XElem.tag,
      findAllL_chanList, findAllL_wsList, findAllL_itemList]

theorem write_ws_name (m : MotecLdxModel) :
    getAD (write_ldx_tree m).attrs "Workspace" "Default" = "Default" := by
  by_cases hpt : truthy m.project_name <;> by_cases hct : truthy m.car_name <;>
    simp [write_ldx_tree, XElem.attrs, getAD, getA, hpt, hct]

theorem truthy_false_of_ne_empty {o : Option String} (h : o ≠ some "")
    (hf : truthy o = false) : o = none := by
  cases hv : o with
  | none => rfl
  | some s =>
    subst hv
    simp [truthy] at hf
    exact absurd (by rw [hf]) h

theorem write_project (m : MotecLdxModel) (hp : m.project_name ≠ some "") :
    getA (write_ldx_tree m).attrs "Project" = m.project_name := by
  by_cases hpt : truthy m.project_name
  · cases hv : m.project_name with
    | none => rw [hv] at hpt; simp [truthy] at hpt
    | some s =>
      rw [hv] at hpt
      by_cases hct : truthy m.car_name <;>
        simp [write_ldx_tree, XElem.attrs, getA, hpt, hct, hv]
  · have h0 := truthy_false_of_ne_empty hp (by simpa using hpt)
    by_cases hct : truthy m.car_name <;>
      simp [write_ldx_tree, XElem.attrs, getA, hpt, hct, h0]

theorem write_car (m : MotecLdxModel) (hc : m.car_name ≠ some "") :
    getA (write_ldx_tree m).attrs "Car" = m.car_name := by
  by_cases hct : truthy m.car_name
  · cases hv : m.car_name with
    | none => rw [hv] at hct; simp [truthy] at hct
    | some s =>
      rw [hv] at hct
      by_cases hpt : truthy m.project_name <;>
        simp [write_ldx_tree, XElem.attrs, getA, hpt, hct, hv]
  · have h0 := truthy_false_of_ne_empty hc (by simpa using hct)
    by_cases hpt : truthy m.project_name <;>
      simp [write_ldx_tree, XElem.attrs, getA, hpt, hct, h0]

theorem read_chanElem (c : Channel) (hs : c.scaling ≠ some "") (hm : c.math ≠ some "") :
    getAD (chanElem c).attrs "Name" "" = c.name
      ∧ getAD (chanElem c).attrs "Units" "" = c.units
      ∧ getAD (chanElem c).attrs "Source" "CAN" = c.source
      ∧ getA (chanElem c).attrs "Scaling" = c.scaling
      ∧ MotecFileService.findText "Math" (chanElem c) = c.math := by
  cases hsv : c.scaling with
  | none =>
    cases hmv : c.math with
    | none =>
      simp [chanElem, truthy, hsv, hmv, XElem.attrs, XElem.kids, getAD, getA,
        MotecFileService.findText, MotecFileService.firstKid]
    | some sm =>
      have hne : sm ≠ "" := fun h => hm (by rw [hmv, h])
      simp [chanElem, truthy, hsv, hmv, hne, XElem.attrs, XElem.kids, getAD, getA,
        MotecFileService.findText, MotecFileService.firstKid, XElem.tag, XElem.text]
  | some ss =>
    have hnes : ss ≠ "" := fun h => hs (by rw [hsv, h])
    cases hmv : c.math with
    | none =>
      simp [chanElem, truthy, hsv, hmv, hnes, XElem.attrs, XElem.kids, getAD, getA,
        MotecFileService.findText, MotecFileService.firstKid]
    | some sm =>
      have hne : sm ≠ "" := fun h => hm (by rw [hmv, h])
      simp [chanElem, truthy, hsv, hmv, hne, hnes, XElem.attrs, XElem.kids, getAD, getA,
        MotecFileService.findText, MotecFileService.firstKid, XElem.tag, XElem.text]

/-- **C3** (counterexample).  For the concrete document `m0` (non-default
workspace name, one metadata item, one worksheet channel reference),
decoding the encoded document loses the workspace name (decode reads an
attribute named `Workspace`, while encode writes the name into `Name`),
the metadata (decode reads `Key`/`Value` off the `Metadata` container
rather than its `Item` children) and the worksheet channel list (encode
writes `ChannelRef` children, decode collects `Channel` descendants), so
the round trip is not field-equal. -/
theorem c3_counterexample :
    (read_ldx_tree (write_ldx_tree m0)).workspace_name = "Default"
      ∧ m0.workspace_name = "WS2025"
      ∧ (read_ldx_tree (write_ldx_tree m0)).metadata = []
      ∧ m0.metadata = [("Session", "1")]
      ∧ (read_ldx_tree (write_ldx_tree m0)).worksheets.map (fun w => w.channels) = [[]]
      ∧ m0.worksheets.map (fun w => w.channels) = [["Speed"]]
      ∧ read_ldx_tree (write_ldx_tree m0) ≠ m0 := by
  refine ⟨?_, rfl, ?_, rfl, ?_, rfl, ?_⟩ <;> decide

/-- **C3 amended**: the LDX round trip `read_ldx ∘ write_ldx` recovers
`project_name`, `car_name` (when not the empty string, which encode's
truthiness test drops), the channel list (when scaling/math are not empty
strings) and the worksheet names/types — but `workspace_name` always
collapses to the decoder default `"Default"`, every worksheet channel
list collapses to `[]`, and `metadata` collapses to `{}`; the claim's
recovery of `workspace_name`, `worksheets` and `metadata` fails. -/
theorem c3_amended (m : MotecLdxModel)
    (hp : m.project_name ≠ some "") (hc : m.car_name ≠ some "")
    (hs : ∀ ch ∈ m.channels, ch.scaling ≠ some "")
    (hm : ∀ ch ∈ m.channels, ch.math ≠ some "") :
    read_ldx_tree (write_ldx_tree m) =
      { workspace_name := "Default"
        project_name := m.project_name
        car_name := m.car_name
        channels := m.channels
        worksheets := m.worksheets.map (fun w => { w with channels := [] })
        metadata := [] } := by
  simp only [read_ldx_tree, write_ws_name m, write_project m hp, write_car m hc,
    write_channels m, write_worksheets m, write_metadata_sec m,
    MotecLdxModel.mk.injEq]
  refine ⟨trivial, trivial, trivial, ?_, ?_, ?_⟩
  · rw [List.map_map]
    conv_rhs => rw [← List.map_id m.channels]
    refine List.map_congr_left (fun c hcm => ?_)
    obtain ⟨h1, h2, h3, h4, h5⟩ := read_chanElem c (hs c hcm) (hm c hcm)
    simp [Function.comp, h1, h2, h3, h4, h5]
  · rw [List.map_map]
    refine List.map_congr_left (fun w hw => ?_)
    have h0 := findAllE_wsElem "Channel" (by decide) w
    simp only [wsElem] at h0
    simp [Function.comp, wsElem, XElem.attrs, getAD, getA, h0]
  · by_cases hmd : m.metadata.isEmpty <;>
      simp [hmd, List.filterMap, getAD, getA]

/-- Witness for `c3_amended`: applied to `m0` stripped of its metadata
and worksheet channels, the round trip reproduces the document except for
the workspace name. -/
theorem c3_amended_witness :
    read_ldx_tree (write_ldx_tree
      { m0 with metadata := [], worksheets := [{ name := "Main", wtype := "graph", channels := [] }] }) =
      { workspace_name := "Default"
        project_name := some "FSAE"
        car_name := some "Car1"
        channels := m0.channels
        worksheets := [{ name := "Main", wtype := "graph", channels := [] }]
        metadata := [] } := by
  have h := c3_amended
    { m0 with metadata := [], worksheets := [{ name := "Main", wtype := "graph", channels := [] }] }
    (by decide) (by decide) (by decide) (by decide)
  simpa using h

/-- Witness for `c6_amended` at concrete inputs: a missing file is
invalid with an error, and an existing 520-byte file is valid. -/
theorem c6_amended_witness :
    ((read_ld_metadata [] "x.ld").valid = false
        ∧ (read_ld_metadata [] "x.ld").error = some "LD file not found: x.ld")
      ∧ (read_ld_metadata [("a.ld", 520)] "a.ld").valid = true := by
  refine ⟨⟨((c6_amended [] "x.ld").1 rfl).1, ((c6_amended [] "x.ld").1 rfl).2.1⟩, ?_⟩
  exact ((c6_amended [("a.ld", 520)] "a.ld").2 520 rfl).1.mpr (by decide)

end USCRacing

namespace USCRacing

/-! ### Skeleton lemmas (C9) -/

open MotecLdxUpdater

mutual

theorem skelEq_refl : ∀ (t : XElem), SkelEq t t
  | .mk tg a te ta ks => .mk tg a te ta ks te ta ks (skelEqL_refl ks)

theorem skelEqL_refl : ∀ (ks : XList), SkelEqL ks ks
  | .nil => .nil
  | .cons e es => .cons e e es es (skelEq_refl e) (skelEqL_refl es)

end

theorem skelEq_tag {w u : XElem} (h : SkelEq w u) : w.tag = u.tag := by
  cases h; rfl

theorem skelEq_attrs {w u : XElem} (h : SkelEq w u) : w.attrs = u.attrs := by
  cases h; rfl

theorem skelEq_kids {w u : XElem} (h : SkelEq w u) : SkelEqL w.kids u.kids := by
  cases h with
  | mk tg a te1 ta1 ks1 te2 ta2 ks2 hk => exact hk

/-- Changing only `.text` and `.tail` of a skeleton-equal element keeps it
skeleton-equal. -/
theorem skelEq_retext {e' e : XElem} (x y : Option String) (h : SkelEq e' e) :
    SkelEq (.mk e'.tag e'.attrs x y e'.kids) e := by
  cases h with
  | mk tg a te1 ta1 ks1 te2 ta2 ks2 hk =>
    exact .mk tg a x y ks1 te2 ta2 ks2 hk

mutual

theorem skelEq_indentElem (sp : String) (lvl : Nat) :
    ∀ (t : XElem), SkelEq (indentElem sp lvl t) t
  | .mk tg a te ta .nil => skelEq_refl _
  | .mk tg a te ta (.cons c cs) =>
    .mk tg a _ ta _ te ta _ (skelEqL_indentKids sp lvl (.cons c cs))

theorem skelEqL_indentKids (sp : String) (lvl : Nat) :
    ∀ (ks : XList), SkelEqL (indentKids sp lvl ks) ks
  | .nil => .nil
  | .cons c .nil =>
    .cons _ _ _ _ (skelEq_retext _ _ (skelEq_indentElem sp (lvl + 1) c)) .nil
  | .cons c (.cons d ds) =>
    .cons _ _ _ _ (skelEq_retext _ _ (skelEq_indentElem sp (lvl + 1) c))
      (skelEqL_indentKids sp lvl (.cons d ds))

end

end USCRacing

namespace USCRacing

/-! ### `updKidsFirst` lemmas (C9) -/

open MotecLdxUpdater

theorem updKF_rerun (p : XElem → Bool) (f : XElem → XElem)
    (hpf : ∀ e, p e = true → p (f e) = true) (hff : ∀ e, f (f e) = f e) :
    ∀ ks ks', updKidsFirst p f ks = some ks' → updKidsFirst p f ks' = some ks'
  | .nil, ks', h => by simp [updKidsFirst] at h
  | .cons e es, ks', h => by
    by_cases hp : p e = true
    · simp [updKidsFirst, hp] at h
      subst h
      simp [updKidsFirst, hpf e hp, hff e]
    · simp [updKidsFirst, hp] at h
      match hrec : updKidsFirst p f es with
      | none => rw [hrec] at h; simp at h
      | some es' =>
        rw [hrec] at h
        simp at h
        subst h
        have ih := updKF_rerun p f hpf hff es es' hrec
        simp [updKidsFirst, hp, ih]

theorem updKF_none_skel (p : XElem → Bool) (f : XElem → XElem)
    (hps : ∀ e w, SkelEq w e → p w = p e) :
    ∀ ks ws, SkelEqL ws ks → updKidsFirst p f ks = none → updKidsFirst p f ws = none
  | .nil, ws, hsk, h => by cases hsk; simp [updKidsFirst]
  | .cons e es, ws, hsk, h => by
    cases hsk with
    | cons w e' wsx es' hwe hrest =>
      by_cases hp : p e = true
      · simp [updKidsFirst, hp] at h
      · simp [updKidsFirst, hp] at h
        match hrec : updKidsFirst p f es with
        | some es2 => rw [hrec] at h; simp at h
        | none =>
          have ih := updKF_none_skel p f hps es wsx hrest hrec
          have hpw : p w = false := by rw [hps e w hwe]; simpa using hp
          simp [updKidsFirst, hpw, ih]

theorem updKF_fix_skel (p : XElem → Bool) (f : XElem → XElem)
    (hps : ∀ e w, SkelEq w e → p w = p e)
    (hfx : ∀ e w, f e = e → SkelEq w e → f w = w) :
    ∀ ks ws, SkelEqL ws ks → updKidsFirst p f ks = some ks →
      updKidsFirst p f ws = some ws
  | .nil, ws, hsk, h => by simp [updKidsFirst] at h
  | .cons e es, ws, hsk, h => by
    cases hsk with
    | cons w e' wsx es' hwe hrest =>
      by_cases hp : p e = true
      · simp [updKidsFirst, hp] at h
        have hfe : f e = e := h
        have hpw : p w = true := by rw [hps e w hwe]; exact hp
        simp [updKidsFirst, hpw, hfx e w hfe hwe]
      · simp [updKidsFirst, hp] at h
        match hrec : updKidsFirst p f es with
        | none => rw [hrec] at h; simp at h
        | some es2 =>
          rw [hrec] at h
          simp at h
          have hfixrest : updKidsFirst p f es = some es := by rw [hrec, h]
          have ih := updKF_fix_skel p f hps hfx es wsx hrest hfixrest
          have hpw : p w = false := by rw [hps e w hwe]; simpa using hp
          simp [updKidsFirst, hpw, ih]

theorem updKF_snoc_none (p : XElem → Bool) (f : XElem → XElem) :
    ∀ ks L, updKidsFirst p f ks = none → p L = true →
      updKidsFirst p f (ks.snoc L) = some (ks.snoc (f L))
  | .nil, L, h, hL => by simp [XList.snoc, updKidsFirst, hL]
  | .cons e es, L, h, hL => by
    by_cases hp : p e = true
    · simp [updKidsFirst, hp] at h
    · simp [updKidsFirst, hp] at h
      match hrec : updKidsFirst p f es with
      | some es2 => rw [hrec] at h; simp at h
      | none =>
        have ih := updKF_snoc_none p f es L hrec hL
        simp [XList.snoc, updKidsFirst, hp, ih]

end USCRacing

namespace USCRacing

/-! ### Generic `updSecE`/`updSecL` lemmas (C9) -/

theorem updSec_tagPres (T : String) (g : XElem → Bool × XElem) :
    ∀ t r, updSecE T g t = some r → r.2.tag = t.tag
  | .mk tg a te ta ks, r, h => by
    unfold updSecE at h
    match hks : updSecL T g ks with
    | none => rw [hks] at h; simp at h
    | some (b, ks') =>
      rw [hks] at h
      injection h with h2
      subst h2
      rfl

mutual

theorem updSec_rerun_E (T : String) (g : XElem → Bool × XElem)
    (hgRe : ∀ e, g ((g e).2) = ((g e).1, (g e).2))
    (hgTag : ∀ e, ((g e).2).tag = e.tag) :
    ∀ t b t', updSecE T g t = some (b, t') → updSecE T g t' = some (b, t')
  | .mk tg a te ta ks, b, t', h => by
    unfold updSecE at h
    match hks : updSecL T g ks with
    | none => rw [hks] at h; simp at h
    | some (b2, ks') =>
      rw [hks] at h
      simp at h
      obtain ⟨hb, ht⟩ := h
      subst hb
      have hl := updSec_rerun_L T g hgRe hgTag ks b2 ks' hks
      rw [← ht]
      unfold updSecE
      rw [hl]

theorem updSec_rerun_L (T : String) (g : XElem → Bool × XElem)
    (hgRe : ∀ e, g ((g e).2) = ((g e).1, (g e).2))
    (hgTag : ∀ e, ((g e).2).tag = e.tag) :
    ∀ ks b ks', updSecL T g ks = some (b, ks') → updSecL T g ks' = some (b, ks')
  | .nil, b, ks', h => by simp [updSecL] at h
  | .cons e es, b, ks', h => by
    unfold updSecL at h
    by_cases he : e.tag = T
    · rw [if_pos he] at h
      simp at h
      obtain ⟨hb, hk⟩ := h
      subst hb
      rw [← hk]
      unfold updSecL
      have htag : ((g e).2).tag = T := by rw [hgTag e]; exact he
      rw [if_pos htag, hgRe e]
    · rw [if_neg he] at h
      match hE : updSecE T g e with
      | some (b2, e2) =>
        rw [hE] at h
        simp at h
        obtain ⟨hb, hk⟩ := h
        subst hb
        rw [← hk]
        unfold updSecL
        have hne2 : ¬(e2.tag = T) := by
          have ht2 := updSec_tagPres T g e (b2, e2) hE
          simp at ht2
          rw [ht2]
          exact he
        rw [if_neg hne2]
        have ihe := updSec_rerun_E T g hgRe hgTag e b2 e2 hE
        rw [ihe]
      | none =>
        rw [hE] at h
        match hR : updSecL T g es with
        | some (b2, es2) =>
          rw [hR] at h
          simp at h
          obtain ⟨hb, hk⟩ := h
          subst hb
          rw [← hk]
          unfold updSecL
          rw [if_neg he, hE]
          have ihr := updSec_rerun_L T g hgRe hgTag es b2 es2 hR
          rw [ihr]
        | none => rw [hR] at h; simp at h

end

mutual

theorem updSec_none_skel_E (T : String) (g : XElem → Bool × XElem) :
    ∀ u w, SkelEq w u → updSecE T g u = none → updSecE T g w = none
  | u, w, hsk, h => by
    cases hsk with
    | mk tg a te1 ta1 ks1 te2 ta2 ks2 hk =>
      unfold updSecE at h ⊢
      match hks : updSecL T g ks2 with
      | some r => rw [hks] at h; simp at h
      | none =>
        have := updSec_none_skel_L T g ks2 ks1 hk hks
        rw [this]

theorem updSec_none_skel_L (T : String) (g : XElem → Bool × XElem) :
    ∀ us ws, SkelEqL ws us → updSecL T g us = none → updSecL T g ws = none
  | us, ws, hsk, h => by
    cases hsk with
    | nil => simp [updSecL]
    | cons w e wsx es hwe hrest =>
      unfold updSecL at h
      by_cases he : e.tag = T
      · rw [if_pos he] at h; simp at h
      · rw [if_neg he] at h
        match hE : updSecE T g e with
        | some r => rw [hE] at h; simp at h
        | none =>
          rw [hE] at h
          match hR : updSecL T g es with
          | some r => rw [hR] at h; simp at h
          | none =>
            have hwtag : ¬(w.tag = T) := by rw [skelEq_tag hwe]; exact he
            have hwE := updSec_none_skel_E T g e w hwe hE
            have hwR := updSec_none_skel_L T g es wsx hrest hR
            unfold updSecL
            rw [if_neg hwtag, hwE, hwR]

end

mutual

theorem updSec_fix_skel_E (T : String) (g : XElem → Bool × XElem)
    (hgFix : ∀ u w b, g u = (b, u) → SkelEq w u → g w = (b, w)) :
    ∀ u w b, updSecE T g u = some (b, u) → SkelEq w u → updSecE T g w = some (b, w)
  | u, w, b, h, hsk => by
    cases hsk with
    | mk tg a te1 ta1 ks1 te2 ta2 ks2 hk =>
      unfold updSecE at h ⊢
      match hks : updSecL T g ks2 with
      | none => rw [hks] at h; simp at h
      | some (b2, ks') =>
        rw [hks] at h
        simp at h
        obtain ⟨hb, hkk⟩ := h
        subst hb
        rw [hkk] at hks
        have := updSec_fix_skel_L T g hgFix ks2 ks1 b2 hks hk
        rw [this]

theorem updSec_fix_skel_L (T : String) (g : XElem → Bool × XElem)
    (hgFix : ∀ u w b, g u = (b, u) → SkelEq w u → g w = (b, w)) :
    ∀ us ws b, updSecL T g us = some (b, us) → SkelEqL ws us → updSecL T g ws = some (b, ws)
  | us, ws, b, h, hsk => by
    cases hsk with
    | nil => simp [updSecL] at h
    | cons w e wsx es hwe hrest =>
      unfold updSecL at h
      by_cases he : e.tag = T
      · rw [if_pos he] at h
        simp at h
        obtain ⟨hb, hge⟩ := h
        have hgfixe : g e = (b, e) := by
          have heta : g e = ((g e).1, (g e).2) := rfl
          rw [heta, hb, hge]
        have hwt : w.tag = T := by rw [skelEq_tag hwe]; exact he
        have := hgFix e w b hgfixe hwe
        unfold updSecL
        rw [if_pos hwt, this]
      · rw [if_neg he] at h
        match hE : updSecE T g e with
        | some (b2, e2) =>
          rw [hE] at h
          simp at h
          obtain ⟨hb, he2⟩ := h
          subst hb
          rw [he2] at hE
          have hwt : ¬(w.tag = T) := by rw [skelEq_tag hwe]; exact he
          have := updSec_fix_skel_E T g hgFix e w b2 hE hwe
          unfold updSecL
          rw [if_neg hwt, this]
        | none =>
          rw [hE] at h
          match hR : updSecL T g es with
          | none => rw [hR] at h; simp at h
          | some (b2, es2) =>
            rw [hR] at h
            simp at h
            obtain ⟨hb, hes2⟩ := h
            subst hb
            rw [hes2] at hR
            have hwt : ¬(w.tag = T) := by rw [skelEq_tag hwe]; exact he
            have hwE := updSec_none_skel_E T g e w hwe hE
            have hwR := updSec_fix_skel_L T g hgFix es wsx b2 hR hrest
            unfold updSecL
            rw [if_neg hwt, hwE, hwR]

end

mutual

theorem updSec_snoc_none_E (T : String) (g : XElem → Bool × XElem) :
    ∀ t L, updSecE T g t = none → L.tag = T →
      updSecE T g (appendKid t L) = some ((g L).1, appendKid t (g L).2)
  | .mk tg a te ta ks, L, h, hL => by
    unfold updSecE at h
    match hks : updSecL T g ks with
    | some r => rw [hks] at h; simp at h
    | none =>
      have := updSec_snoc_none_L T g ks L hks hL
      unfold appendKid
      simp only [XElem.tag, XElem.attrs, XElem.text, XElem.tail, XElem.kids]
      unfold updSecE
      rw [this]

theorem updSec_snoc_none_L (T : String) (g : XElem → Bool × XElem) :
    ∀ ks L, updSecL T g ks = none → L.tag = T →
      updSecL T g (ks.snoc L) = some ((g L).1, ks.snoc (g L).2)
  | .nil, L, h, hL => by
    show updSecL T g (.cons L .nil) = some ((g L).1, .cons (g L).2 .nil)
    unfold updSecL
    rw [if_pos hL]
  | .cons e es, L, h, hL => by
    unfold updSecL at h
    by_cases he : e.tag = T
    · rw [if_pos he] at h; simp at h
    · rw [if_neg he] at h
      match hE : updSecE T g e with
      | some r => rw [hE] at h; simp at h
      | none =>
        rw [hE] at h
        match hR : updSecL T g es with
        | some r => rw [hR] at h; simp at h
        | none =>
          have := updSec_snoc_none_L T g es L hR hL
          simp only [XList.snoc]
          unfold updSecL
          rw [if_neg he, hE, this]

end

mutual

theorem updSec_false_E (T : String) (g : XElem → Bool × XElem)
    (hg : ∀ e, (g e).1 = false) :
    ∀ t b t', updSecE T g t = some (b, t') → b = false
  | .mk tg a te ta ks, b, t', h => by
    unfold updSecE at h
    match hks : updSecL T g ks with
    | none => rw [hks] at h; simp at h
    | some (b2, ks') =>
      rw [hks] at h
      simp at h
      rw [← h.1]
      exact updSec_false_L T g hg ks b2 ks' hks

theorem updSec_false_L (T : String) (g : XElem → Bool × XElem)
    (hg : ∀ e, (g e).1 = false) :
    ∀ ks b ks', updSecL T g ks = some (b, ks') → b = false
  | .nil, b, ks', h => by simp [updSecL] at h
  | .cons e es, b, ks', h => by
    unfold updSecL at h
    by_cases he : e.tag = T
    · rw [if_pos he] at h
      simp at h
      rw [← h.1]
      exact hg e
    · rw [if_neg he] at h
      match hE : updSecE T g e with
      | some (b2, e2) =>
        rw [hE] at h
        simp at h
        rw [← h.1]
        exact updSec_false_E T g hg e b2 e2 hE
      | none =>
        rw [hE] at h
        match hR : updSecL T g es with
        | some (b2, es2) =>
          rw [hR] at h
          simp at h
          rw [← h.1]
          exact updSec_false_L T g hg es b2 es2 hR
        | none => rw [hR] at h; simp at h

end

end USCRacing

namespace USCRacing

/-! ### Size and attribute lemmas (C9) -/

open MotecLdxUpdater

theorem len_snoc : ∀ (ks : XList) (x : XElem), (ks.snoc x).len = ks.len + 1
  | .nil, x => rfl
  | .cons e es, x => by simp [XList.snoc, XList.len, len_snoc es x]

theorem snoc_ne_self (ks : XList) (x : XElem) : ks.snoc x ≠ ks := by
  intro h
  have := congrArg XList.len h
  rw [len_snoc] at this
  omega

theorem appendKid_ne_self (e c : XElem) : appendKid e c ≠ e := by
  cases e with
  | mk tg a te ta ks =>
    intro h
    simp [appendKid, XElem.tag, XElem.attrs, XElem.text, XElem.tail, XElem.kids] at h
    exact snoc_ne_self ks c h

theorem setA_setA : ∀ (a : List (String × String)) (k v : String),
    setA (setA a k v) k v = setA a k v
  | [], k, v => by simp [setA]
  | (k', v') :: rest, k, v => by
    by_cases hk : k' = k
    · simp [setA, hk]
    · simp [setA, hk, setA_setA rest k v]

theorem getA_setA_ne : ∀ (a : List (String × String)) (k v k' : String),
    k' ≠ k → getA (setA a k v) k' = getA a k'
  | [], k, v, k', h => by simp [setA, getA, Ne.symm h]
  | (k2, v2) :: rest, k, v, k', h => by
    by_cases hk : k2 = k
    · subst hk
      simp [setA, getA, Ne.symm h]
    · simp [setA, getA, hk, getA_setA_ne rest k v k' h]

/-! ### `gAttrUpd` obligations (C9) -/

theorem gAttrUpd_tag (p : XElem → Bool) (f : XElem → XElem) :
    ∀ d, ((gAttrUpd p f d).2).tag = d.tag := by
  intro d
  unfold gAttrUpd
  cases hk : updKidsFirst p f d.kids <;> simp [XElem.tag]

theorem gAttrUpd_rerun (p : XElem → Bool) (f : XElem → XElem)
    (hpf : ∀ e, p e = true → p (f e) = true) (hff : ∀ e, f (f e) = f e) :
    ∀ d, gAttrUpd p f ((gAttrUpd p f d).2) = ((gAttrUpd p f d).1, (gAttrUpd p f d).2) := by
  intro d
  unfold gAttrUpd
  cases hk : updKidsFirst p f d.kids with
  | none => simp [hk]
  | some ks =>
    have hre := updKF_rerun p f hpf hff d.kids ks hk
    simp [XElem.tag, XElem.attrs, XElem.text, XElem.tail, XElem.kids, hre]

theorem gAttrUpd_fix (p : XElem → Bool) (f : XElem → XElem)
    (hps : ∀ e w, SkelEq w e → p w = p e)
    (hfx : ∀ e w, f e = e → SkelEq w e → f w = w) :
    ∀ u w b, gAttrUpd p f u = (b, u) → SkelEq w u → gAttrUpd p f w = (b, w) := by
  intro u w b h hsk
  cases hsk with
  | mk tg a te1 ta1 ks1 te2 ta2 ks2 hkk =>
    unfold gAttrUpd at h ⊢
    simp only [XElem.kids] at h ⊢
    cases hk : updKidsFirst p f ks2 with
    | none =>
      rw [hk] at h
      simp [XElem.tag, XElem.attrs, XElem.text, XElem.tail, XElem.kids] at h
      have hw := updKF_none_skel p f hps ks2 ks1 hkk hk
      simp [hw, h, XElem.tag, XElem.attrs, XElem.text, XElem.tail, XElem.kids]
    | some ks' =>
      rw [hk] at h
      simp [XElem.tag, XElem.attrs, XElem.text, XElem.tail, XElem.kids] at h
      obtain ⟨hb, hks'⟩ := h
      rw [hks'] at hk
      have hw := updKF_fix_skel p f hps hfx ks2 ks1 hkk hk
      simp [hw, hb, XElem.tag, XElem.attrs, XElem.text, XElem.tail, XElem.kids]

end USCRacing

namespace USCRacing

/-! ### Concrete mutator obligations (C9) -/

open MotecLdxUpdater

theorem withSetA_idem (k v : String) : ∀ (e : XElem),
    (fun e => withAttrs e (setA e.attrs k v)) ((fun e => withAttrs e (setA e.attrs k v)) e)
      = (fun e => withAttrs e (setA e.attrs k v)) e := by
  intro e
  cases e with
  | mk tg a te ta ks => simp [withAttrs, XElem.tag, XElem.attrs, XElem.text, XElem.tail, XElem.kids, setA_setA]

theorem withSetA_fix (k v : String) : ∀ (e w : XElem),
    withAttrs e (setA e.attrs k v) = e → SkelEq w e → withAttrs w (setA w.attrs k v) = w := by
  intro e w hfe hsk
  cases hsk with
  | mk tg a te1 ta1 ks1 te2 ta2 ks2 hk =>
    simp [withAttrs, XElem.tag, XElem.attrs, XElem.text, XElem.tail, XElem.kids] at hfe ⊢
    exact hfe

theorem p_skel_pres (p : XElem → Bool)
    (hp : ∀ tg a te1 ta1 ks1 te2 ta2 ks2,
      p (.mk tg a te1 ta1 ks1) = p (.mk tg a te2 ta2 ks2)) :
    ∀ e w, SkelEq w e → p w = p e := by
  intro e w hsk
  cases hsk with
  | mk tg a te1 ta1 ks1 te2 ta2 ks2 hk => exact hp tg a te1 ta1 ks1 te2 ta2 ks2

theorem gDetails_rerun (sid v : String) :
    ∀ e, gDetails sid v ((gDetails sid v e).2)
      = ((gDetails sid v e).1, (gDetails sid v e).2) :=
  gAttrUpd_rerun _ _
    (fun e he => by
      cases e with
      | mk tg a te ta ks =>
        simpa [withAttrs, XElem.attrs, XElem.tag, decide_eq_true_eq,
          getA_setA_ne a "Value" v "Id" (by decide)] using he)
    (withSetA_idem "Value" v)

theorem gDetails_tag (sid v : String) :
    ∀ e, ((gDetails sid v e).2).tag = e.tag :=
  gAttrUpd_tag _ _

theorem gDetails_fix (sid v : String) :
    ∀ u w b, gDetails sid v u = (b, u) → SkelEq w u → gDetails sid v w = (b, w) :=
  gAttrUpd_fix _ _
    (p_skel_pres _ (fun tg a te1 ta1 ks1 te2 ta2 ks2 => by
      simp [XElem.tag, XElem.attrs]))
    (withSetA_fix "Value" v)

end USCRacing

namespace USCRacing

open MotecLdxUpdater

theorem gMath_rerun (itemId field v : String) :
    ∀ e, gMath itemId field v ((gMath itemId field v e).2)
      = ((gMath itemId field v e).1, (gMath itemId field v e).2) := by
  intro e
  by_cases h1 : field = "scale" ∨ field = "Scale"
  · simp only [gMath, if_pos h1]
    refine gAttrUpd_rerun _ _ ?_ (withSetA_idem "Scale" v) e
    intro e2 he
    cases e2 with
    | mk tg a te ta ks =>
      simpa [withAttrs, XElem.tag, XElem.attrs, getAD,
        getA_setA_ne a "Scale" v "Id" (by decide)] using he
  · by_cases h2 : field = "offset" ∨ field = "Offset"
    · simp only [gMath, if_neg h1, if_pos h2]
      refine gAttrUpd_rerun _ _ ?_ (withSetA_idem "Offset" v) e
      intro e2 he
      cases e2 with
      | mk tg a te ta ks =>
        simpa [withAttrs, XElem.tag, XElem.attrs, getAD,
          getA_setA_ne a "Offset" v "Id" (by decide)] using he
    · simp only [gMath, if_neg h1, if_neg h2]

theorem gMath_tag (itemId field v : String) :
    ∀ e, ((gMath itemId field v e).2).tag = e.tag := by
  intro e
  by_cases h1 : field = "scale" ∨ field = "Scale"
  · simp only [gMath, if_pos h1]
    exact gAttrUpd_tag _ _ e
  · by_cases h2 : field = "offset" ∨ field = "Offset"
    · simp only [gMath, if_neg h1, if_pos h2]
      exact gAttrUpd_tag _ _ e
    · simp only [gMath, if_neg h1, if_neg h2]

theorem gMath_fix (itemId field v : String) :
    ∀ u w b, gMath itemId field v u = (b, u) → SkelEq w u →
      gMath itemId field v w = (b, w) := by
  intro u w b h hsk
  by_cases h1 : field = "scale" ∨ field = "Scale"
  · simp only [gMath, if_pos h1] at h ⊢
    exact gAttrUpd_fix _ _
      (p_skel_pres _ (fun tg a te1 ta1 ks1 te2 ta2 ks2 => by
        simp [XElem.tag, XElem.attrs]))
      (withSetA_fix "Scale" v) u w b h hsk
  · by_cases h2 : field = "offset" ∨ field = "Offset"
    · simp only [gMath, if_neg h1, if_pos h2] at h ⊢
      exact gAttrUpd_fix _ _
        (p_skel_pres _ (fun tg a te1 ta1 ks1 te2 ta2 ks2 => by
          simp [XElem.tag, XElem.attrs]))
        (withSetA_fix "Offset" v) u w b h hsk
    · simp only [gMath, if_neg h1, if_neg h2] at h ⊢
      simp at h
      simp [h]

theorem gDesc_rerun (descId field v : String) :
    ∀ e, gDesc descId field v ((gDesc descId field v e).2)
      = ((gDesc descId field v e).1, (gDesc descId field v e).2) := by
  intro e
  by_cases h1 : field = "dps" ∨ field = "DisplayDPS"
  · simp only [gDesc, if_pos h1]
    refine gAttrUpd_rerun _ _ ?_ (withSetA_idem "DisplayDPS" v) e
    intro e2 he
    cases e2 with
    | mk tg a te ta ks =>
      simpa [withAttrs, XElem.tag, XElem.attrs,
        getA_setA_ne a "DisplayDPS" v "Id" (by decide)] using he
  · by_cases h2 : field = "unit" ∨ field = "DisplayUnit"
    · simp only [gDesc, if_neg h1, if_pos h2]
      refine gAttrUpd_rerun _ _ ?_ (withSetA_idem "DisplayUnit" v) e
      intro e2 he
      cases e2 with
      | mk tg a te ta ks =>
        simpa [withAttrs, XElem.tag, XElem.attrs,
          getA_setA_ne a "DisplayUnit" v "Id" (by decide)] using he
    · simp only [gDesc, if_neg h1, if_neg h2]

theorem gDesc_tag (descId field v : String) :
    ∀ e, ((gDesc descId field v e).2).tag = e.tag := by
  intro e
  by_cases h1 : field = "dps" ∨ field = "DisplayDPS"
  · simp only [gDesc, if_pos h1]
    exact gAttrUpd_tag _ _ e
  · by_cases h2 : field = "unit" ∨ field = "DisplayUnit"
    · simp only [gDesc, if_neg h1, if_pos h2]
      exact gAttrUpd_tag _ _ e
    · simp only [gDesc, if_neg h1, if_neg h2]

theorem gDesc_fix (descId field v : String) :
    ∀ u w b, gDesc descId field v u = (b, u) → SkelEq w u →
      gDesc descId field v w = (b, w) := by
  intro u w b h hsk
  by_cases h1 : field = "dps" ∨ field = "DisplayDPS"
  · simp only [gDesc, if_pos h1] at h ⊢
    exact gAttrUpd_fix _ _
      (p_skel_pres _ (fun tg a te1 ta1 ks1 te2 ta2 ks2 => by
        simp [XElem.tag, XElem.attrs]))
      (withSetA_fix "DisplayDPS" v) u w b h hsk
  · by_cases h2 : field = "unit" ∨ field = "DisplayUnit"
    · simp only [gDesc, if_neg h1, if_pos h2] at h ⊢
      exact gAttrUpd_fix _ _
        (p_skel_pres _ (fun tg a te1 ta1 ks1 te2 ta2 ks2 => by
          simp [XElem.tag, XElem.attrs]))
        (withSetA_fix "DisplayUnit" v) u w b h hsk
    · simp only [gDesc, if_neg h1, if_neg h2] at h ⊢
      simp at h
      simp [h]

end USCRacing


namespace USCRacing

/-! ### Documentation-upsert obligations (C9) -/

open MotecLdxUpdater

theorem gDocString_some (did fv : String) (d : XElem) (ks : XList)
    (h : updKidsFirst
      (fun e => e.tag = "String" ∧ getA e.attrs "Id" = some did)
      (fun e => withAttrs e (setA e.attrs "Value" fv)) d.kids = some ks) :
    gDocString did fv d = (true, .mk d.tag d.attrs d.text d.tail ks) := by
  unfold gDocString
  rw [h]

theorem gDocString_non (did fv : String) (d : XElem)
    (h : updKidsFirst
      (fun e => e.tag = "String" ∧ getA e.attrs "Id" = some did)
      (fun e => withAttrs e (setA e.attrs "Value" fv)) d.kids = none) :
    gDocString did fv d = (true, appendKid d (newString did fv)) := by
  unfold gDocString
  rw [h]

theorem gDocString_bool (did fv : String) : ∀ d, (gDocString did fv d).1 = true := by
  intro d
  cases hk : updKidsFirst
      (fun e => e.tag = "String" ∧ getA e.attrs "Id" = some did)
      (fun e => withAttrs e (setA e.attrs "Value" fv)) d.kids with
  | some ks => rw [gDocString_some did fv d ks hk]
  | none => rw [gDocString_non did fv d hk]

theorem p_newString (did fv : String) :
    (fun (e : XElem) => decide (e.tag = "String" ∧ getA e.attrs "Id" = some did))
      (newString did fv) = true := by
  simp [newString, XElem.tag, XElem.attrs, XElem.text, XElem.tail, XElem.kids, getA]

theorem f_newString (did fv : String) :
    withAttrs (newString did fv) (setA (newString did fv).attrs "Value" fv)
      = newString did fv := by
  simp [newString, withAttrs, XElem.tag, XElem.attrs, XElem.text, XElem.tail,
    XElem.kids, setA]

theorem gDocString_pString (did fv : String) :
    ∀ e, (fun (e : XElem) => decide (e.tag = "String" ∧ getA e.attrs "Id" = some did))
        e = true →
      (fun (e : XElem) => decide (e.tag = "String" ∧ getA e.attrs "Id" = some did))
        ((fun (e : XElem) => withAttrs e (setA e.attrs "Value" fv)) e) = true := by
  intro e he
  cases e with
  | mk tg a te ta ks =>
    simpa [withAttrs, XElem.tag, XElem.attrs,
      getA_setA_ne a "Value" fv "Id" (by decide)] using he

theorem gDocString_rerun (did fv : String) :
    ∀ d, gDocString did fv ((gDocString did fv d).2) = (true, (gDocString did fv d).2) := by
  intro d
  cases hk : updKidsFirst
      (fun e => e.tag = "String" ∧ getA e.attrs "Id" = some did)
      (fun e => withAttrs e (setA e.attrs "Value" fv)) d.kids with
  | some ks =>
    rw [gDocString_some did fv d ks hk]
    have hre := updKF_rerun _ _ (gDocString_pString did fv) (withSetA_idem "Value" fv)
      d.kids ks hk
    rw [gDocString_some did fv (.mk d.tag d.attrs d.text d.tail ks) ks
      (by simpa [XElem.kids] using hre)]
    simp [XElem.tag, XElem.attrs, XElem.text, XElem.tail, XElem.kids]
  | none =>
    rw [gDocString_non did fv d hk]
    have hsn := updKF_snoc_none _ _ d.kids (newString did fv) hk (p_newString did fv)
    rw [f_newString did fv] at hsn
    have hkids : (appendKid d (newString did fv)).kids = d.kids.snoc (newString did fv) := by
      cases d with
      | mk tg a te ta ks => rfl
    rw [gDocString_some did fv (appendKid d (newString did fv))
      (d.kids.snoc (newString did fv)) (by rw [hkids]; exact hsn)]
    cases d with
    | mk tg a te ta ks => rfl

theorem gDocString_hgRe (did fv : String) :
    ∀ e, gDocString did fv ((gDocString did fv e).2)
      = ((gDocString did fv e).1, (gDocString did fv e).2) := by
  intro e
  rw [gDocString_rerun did fv e, gDocString_bool did fv e]

theorem gDocString_tag (did fv : String) :
    ∀ d, ((gDocString did fv d).2).tag = d.tag := by
  intro d
  cases hk : updKidsFirst
      (fun e => e.tag = "String" ∧ getA e.attrs "Id" = some did)
      (fun e => withAttrs e (setA e.attrs "Value" fv)) d.kids with
  | some ks =>
    rw [gDocString_some did fv d ks hk]
    simp [XElem.tag]
  | none =>
    rw [gDocString_non did fv d hk]
    cases d with
    | mk tg a te ta ks => rfl

theorem gDocString_fix (did fv : String) :
    ∀ u w b, gDocString did fv u = (b, u) → SkelEq w u → gDocString did fv w = (b, w) := by
  intro u w b h hsk
  cases hsk with
  | mk tg a te1 ta1 ks1 te2 ta2 ks2 hkk =>
    cases hk : updKidsFirst
        (fun e => e.tag = "String" ∧ getA e.attrs "Id" = some did)
        (fun e => withAttrs e (setA e.attrs "Value" fv)) ks2 with
    | some ks' =>
      rw [gDocString_some did fv _ ks' (by simpa [XElem.kids] using hk)] at h
      simp [XElem.tag, XElem.attrs, XElem.text, XElem.tail, XElem.kids] at h
      obtain ⟨hb, hks'⟩ := h
      rw [hks'] at hk
      have hw := updKF_fix_skel _ _
        (p_skel_pres _ (fun tg a te1 ta1 ks1 te2 ta2 ks2 => by
          simp [XElem.tag, XElem.attrs]))
        (withSetA_fix "Value" fv) ks2 ks1 hkk hk
      rw [gDocString_some did fv _ ks1 (by simpa [XElem.kids] using hw)]
      simp [XElem.tag, XElem.attrs, XElem.text, XElem.tail, XElem.kids, hb]
    | none =>
      rw [gDocString_non did fv _ (by simpa [XElem.kids] using hk)] at h
      simp at h
      exact absurd h.2 (appendKid_ne_self _ _)

theorem gDocString_newDetails (did fv : String) :
    gDocString did fv (newDetails did fv) = (true, newDetails did fv) := by
  have hk : updKidsFirst
      (fun e => e.tag = "String" ∧ getA e.attrs "Id" = some did)
      (fun e => withAttrs e (setA e.attrs "Value" fv)) (newDetails did fv).kids
      = some (.cons (newString did fv) .nil) := by
    simp only [newDetails, XElem.kids, updKidsFirst]
    rw [if_pos (p_newString did fv), f_newString did fv]
  rw [gDocString_some did fv _ _ hk]
  rfl

end USCRacing

namespace USCRacing

open MotecLdxUpdater

theorem gDocLayers_some (did fv : String) (ly : XElem) (b : Bool) (ly' : XElem)
    (h : updSecE "Details" (gDocString did fv) ly = some (b, ly')) :
    gDocLayers did fv ly = (true, ly') := by
  unfold gDocLayers
  rw [h]

theorem gDocLayers_non (did fv : String) (ly : XElem)
    (h : updSecE "Details" (gDocString did fv) ly = none) :
    gDocLayers did fv ly = (true, appendKid ly (newDetails did fv)) := by
  unfold gDocLayers
  rw [h]

theorem gDocLayers_bool (did fv : String) : ∀ ly, (gDocLayers did fv ly).1 = true := by
  intro ly
  cases hI : updSecE "Details" (gDocString did fv) ly with
  | some r => rw [gDocLayers_some did fv ly r.1 r.2 (by rw [hI])]
  | none => rw [gDocLayers_non did fv ly hI]

theorem gDocLayers_tag (did fv : String) :
    ∀ ly, ((gDocLayers did fv ly).2).tag = ly.tag := by
  intro ly
  cases hI : updSecE "Details" (gDocString did fv) ly with
  | some r =>
    rw [gDocLayers_some did fv ly r.1 r.2 (by rw [hI])]
    have := updSec_tagPres "Details" (gDocString did fv) ly r hI
    simpa using this
  | none =>
    rw [gDocLayers_non did fv ly hI]
    cases ly with
    | mk tg a te ta ks => rfl

theorem gDocLayers_rerun (did fv : String) :
    ∀ ly, gDocLayers did fv ((gDocLayers did fv ly).2)
      = ((gDocLayers did fv ly).1, (gDocLayers did fv ly).2) := by
  intro ly
  cases hI : updSecE "Details" (gDocString did fv) ly with
  | some r =>
    obtain ⟨b2, ly'⟩ := r
    rw [gDocLayers_some did fv ly b2 ly' hI]
    have hre := updSec_rerun_E "Details" (gDocString did fv)
      (gDocString_hgRe did fv) (gDocString_tag did fv) ly b2 ly' hI
    rw [gDocLayers_some did fv ly' b2 ly' hre]
  | none =>
    rw [gDocLayers_non did fv ly hI]
    have hsn := updSec_snoc_none_E "Details" (gDocString did fv) ly
      (newDetails did fv) hI rfl
    rw [gDocString_newDetails did fv] at hsn
    rw [gDocLayers_some did fv _ true (appendKid ly (newDetails did fv)) hsn]

theorem gDocLayers_fix (did fv : String) :
    ∀ u w b, gDocLayers did fv u = (b, u) → SkelEq w u → gDocLayers did fv w = (b, w) := by
  intro u w b h hsk
  cases hI : updSecE "Details" (gDocString did fv) u with
  | some r =>
    obtain ⟨b2, u'⟩ := r
    rw [gDocLayers_some did fv u b2 u' hI] at h
    simp at h
    obtain ⟨hb, hu'⟩ := h
    rw [hu'] at hI
    have hw := updSec_fix_skel_E "Details" (gDocString did fv)
      (gDocString_fix did fv) u w b2 hI hsk
    rw [gDocLayers_some did fv w b2 w hw, hb]
  | none =>
    rw [gDocLayers_non did fv u hI] at h
    simp at h
    exact absurd h.2 (appendKid_ne_self _ _)

theorem gDocLayers_newLayers (did fv : String) :
    gDocLayers did fv (newLayers did fv) = (true, newLayers did fv) := by
  have hI : updSecE "Details" (gDocString did fv) (newLayers did fv)
      = some (true, newLayers did fv) := by
    show updSecE "Details" (gDocString did fv)
        (.mk "Layers" [] none none (.cons (newDetails did fv) .nil))
      = some (true, newLayers did fv)
    unfold updSecE updSecL
    rw [if_pos (show (newDetails did fv).tag = "Details" from rfl)]
    rw [gDocString_newDetails did fv]
    rfl
  exact gDocLayers_some did fv _ true _ hI

theorem docUpd_some (did fv : String) (t : XElem) (b : Bool) (t1 : XElem)
    (h : updSecE "Layers" (gDocLayers did fv) t = some (b, t1)) :
    docUpd did fv t = t1 := by
  unfold docUpd
  rw [h]

theorem docUpd_non (did fv : String) (t : XElem)
    (h : updSecE "Layers" (gDocLayers did fv) t = none) :
    docUpd did fv t = appendKid t (newLayers did fv) := by
  unfold docUpd
  rw [h]

theorem gDocLayers_hgRe (did fv : String) :
    ∀ e, gDocLayers did fv ((gDocLayers did fv e).2)
      = ((gDocLayers did fv e).1, (gDocLayers did fv e).2) :=
  gDocLayers_rerun did fv

theorem docUpd_rerun (did fv : String) :
    ∀ t, docUpd did fv (docUpd did fv t) = docUpd did fv t := by
  intro t
  cases hT : updSecE "Layers" (gDocLayers did fv) t with
  | some r =>
    obtain ⟨b, t1⟩ := r
    rw [docUpd_some did fv t b t1 hT]
    have hre := updSec_rerun_E "Layers" (gDocLayers did fv)
      (gDocLayers_hgRe did fv) (gDocLayers_tag did fv) t b t1 hT
    rw [docUpd_some did fv t1 b t1 hre]
  | none =>
    rw [docUpd_non did fv t hT]
    have hsn := updSec_snoc_none_E "Layers" (gDocLayers did fv) t
      (newLayers did fv) hT rfl
    rw [gDocLayers_newLayers did fv] at hsn
    rw [docUpd_some did fv _ true (appendKid t (newLayers did fv)) hsn]

theorem docUpd_fix (did fv : String) :
    ∀ u w, docUpd did fv u = u → SkelEq w u → docUpd did fv w = w := by
  intro u w h hsk
  cases hT : updSecE "Layers" (gDocLayers did fv) u with
  | some r =>
    obtain ⟨b, u'⟩ := r
    rw [docUpd_some did fv u b u' hT] at h
    rw [h] at hT
    have hw := updSec_fix_skel_E "Layers" (gDocLayers did fv)
      (gDocLayers_fix did fv) u w b hT hsk
    exact docUpd_some did fv w b w hw
  | none =>
    rw [docUpd_non did fv u hT] at h
    exact absurd h (appendKid_ne_self _ _)

end USCRacing


namespace USCRacing

/-! ### `ET.indent` idempotence (C9) -/

theorem wsOnly_indStr (sp : String) (hsp : sp.data.all (·.isWhitespace) = true) :
    ∀ k, wsOnly (some (indStr sp k)) = true
  | 0 => by simp only [indStr]; decide
  | k + 1 => by
    have ih := wsOnly_indStr sp hsp k
    simp [indStr, wsOnly, String.data_append, List.all_append] at ih ⊢
    exact ⟨ih, by simpa using hsp⟩

/-- `ET.indent` never reads or writes the tail of the element it is
applied to, so it commutes with replacing that tail. -/
theorem indentElem_tail_comm (sp : String) (lvl : Nat) :
    ∀ (e : XElem) (tl : Option String),
      indentElem sp lvl (.mk e.tag e.attrs e.text tl e.kids)
        = .mk (indentElem sp lvl e).tag (indentElem sp lvl e).attrs
            (indentElem sp lvl e).text tl (indentElem sp lvl e).kids
  | .mk tg a te ta .nil, tl => rfl
  | .mk tg a te ta (.cons c cs), tl => rfl

/-- `indentKids` maps a nonempty list to a nonempty list. -/
theorem indentKids_cons_shape (sp : String) (lvl : Nat) (d : XElem) (ds : XList) :
    ∃ y ys, indentKids sp lvl (.cons d ds) = .cons y ys := by
  cases ds with
  | nil => exact ⟨_, _, rfl⟩
  | cons e es => exact ⟨_, _, rfl⟩

mutual

theorem indentElem_idem (sp : String) (hsp : sp.data.all (·.isWhitespace) = true) :
    ∀ (lvl : Nat) (t : XElem),
      indentElem sp lvl (indentElem sp lvl t) = indentElem sp lvl t
  | lvl, .mk tg a te ta .nil => rfl
  | lvl, .mk tg a te ta (.cons c cs) => by
    have hL := indentKids_idem sp hsp lvl (.cons c cs)
    show indentElem sp lvl
        (.mk tg a (if wsOnly te = true then some (indStr sp (lvl + 1)) else te) ta
          (indentKids sp lvl (.cons c cs)))
      = .mk tg a (if wsOnly te = true then some (indStr sp (lvl + 1)) else te) ta
          (indentKids sp lvl (.cons c cs))
    obtain ⟨y, ys, hys⟩ := indentKids_cons_shape sp lvl c cs
    rw [hys] at hL ⊢
    show XElem.mk tg a
        (if wsOnly (if wsOnly te = true then some (indStr sp (lvl + 1)) else te) = true
          then some (indStr sp (lvl + 1))
          else (if wsOnly te = true then some (indStr sp (lvl + 1)) else te)) ta
        (indentKids sp lvl (.cons y ys)) = _
    rw [hL]
    by_cases hte : wsOnly te = true
    · simp [hte, wsOnly_indStr sp hsp (lvl + 1)]
    · simp [hte]

theorem indentKids_idem (sp : String) (hsp : sp.data.all (·.isWhitespace) = true) :
    ∀ (lvl : Nat) (ks : XList),
      indentKids sp lvl (indentKids sp lvl ks) = indentKids sp lvl ks
  | lvl, .nil => rfl
  | lvl, .cons (.mk ctg ca cte cta cks) .nil => by
    have hE := indentElem_idem sp hsp (lvl + 1) (.mk ctg ca cte cta cks)
    show indentKids sp lvl
        (.cons (.mk (indentElem sp (lvl + 1) (.mk ctg ca cte cta cks)).tag
          (indentElem sp (lvl + 1) (.mk ctg ca cte cta cks)).attrs
          (indentElem sp (lvl + 1) (.mk ctg ca cte cta cks)).text
          (if wsOnly cta = true then some (indStr sp lvl) else cta)
          (indentElem sp (lvl + 1) (.mk ctg ca cte cta cks)).kids) .nil) = _
    show XList.cons (.mk
        (indentElem sp (lvl + 1) (.mk (indentElem sp (lvl + 1) (.mk ctg ca cte cta cks)).tag
          (indentElem sp (lvl + 1) (.mk ctg ca cte cta cks)).attrs
          (indentElem sp (lvl + 1) (.mk ctg ca cte cta cks)).text
          (if wsOnly cta = true then some (indStr sp lvl) else cta)
          (indentElem sp (lvl + 1) (.mk ctg ca cte cta cks)).kids)).tag
        (indentElem sp (lvl + 1) (.mk (indentElem sp (lvl + 1) (.mk ctg ca cte cta cks)).tag
          (indentElem sp (lvl + 1) (.mk ctg ca cte cta cks)).attrs
          (indentElem sp (lvl + 1) (.mk ctg ca cte cta cks)).text
          (if wsOnly cta = true then some (indStr sp lvl) else cta)
          (indentElem sp (lvl + 1) (.mk ctg ca cte cta cks)).kids)).attrs
        (indentElem sp (lvl + 1) (.mk (indentElem sp (lvl + 1) (.mk ctg ca cte cta cks)).tag
          (indentElem sp (lvl + 1) (.mk ctg ca cte cta cks)).attrs
          (indentElem sp (lvl + 1) (.mk ctg ca cte cta cks)).text
          (if wsOnly cta = true then some (indStr sp lvl) else cta)
          (indentElem sp (lvl + 1) (.mk ctg ca cte cta cks)).kids)).text
        (if wsOnly (if wsOnly cta = true then some (indStr sp lvl) else cta) = true
          then some (indStr sp lvl)
          else (if wsOnly cta = true then some (indStr sp lvl) else cta))
        (indentElem sp (lvl + 1) (.mk (indentElem sp (lvl + 1) (.mk ctg ca cte cta cks)).tag
          (indentElem sp (lvl + 1) (.mk ctg ca cte cta cks)).attrs
          (indentElem sp (lvl + 1) (.mk ctg ca cte cta cks)).text
          (if wsOnly cta = true then some (indStr sp lvl) else cta)
          (indentElem sp (lvl + 1) (.mk ctg ca cte cta cks)).kids)).kids) .nil = _
    rw [indentElem_tail_comm sp (lvl + 1) (indentElem sp (lvl + 1) (.mk ctg ca cte cta cks)), hE]
    by_cases hct : wsOnly cta = true
    · simp [indentKids, hct, wsOnly_indStr sp hsp lvl,
        XElem.tag, XElem.attrs, XElem.text, XElem.tail, XElem.kids]
    · simp [indentKids, hct,
        XElem.tag, XElem.attrs, XElem.text, XElem.tail, XElem.kids]
  | lvl, .cons (.mk ctg ca cte cta cks) (.cons d ds) => by
    have hE := indentElem_idem sp hsp (lvl + 1) (.mk ctg ca cte cta cks)
    have hrest := indentKids_idem sp hsp lvl (.cons d ds)
    obtain ⟨y, ys, hys⟩ := indentKids_cons_shape sp lvl d ds
    show indentKids sp lvl
        (.cons (.mk (indentElem sp (lvl + 1) (.mk ctg ca cte cta cks)).tag
          (indentElem sp (lvl + 1) (.mk ctg ca cte cta cks)).attrs
          (indentElem sp (lvl + 1) (.mk ctg ca cte cta cks)).text
          (if wsOnly cta = true then some (indStr sp (lvl + 1)) else cta)
          (indentElem sp (lvl + 1) (.mk ctg ca cte cta cks)).kids)
          (indentKids sp lvl (.cons d ds)))
      = indentKids sp lvl (.cons (.mk ctg ca cte cta cks) (.cons d ds))
    rw [hys] at hrest ⊢
    show XList.cons (.mk
        (indentElem sp (lvl + 1) (.mk (indentElem sp (lvl + 1) (.mk ctg ca cte cta cks)).tag
          (indentElem sp (lvl + 1) (.mk ctg ca cte cta cks)).attrs
          (indentElem sp (lvl + 1) (.mk ctg ca cte cta cks)).text
          (if wsOnly cta = true then some (indStr sp (lvl + 1)) else cta)
          (indentElem sp (lvl + 1) (.mk ctg ca cte cta cks)).kids)).tag
        (indentElem sp (lvl + 1) (.mk (indentElem sp (lvl + 1) (.mk ctg ca cte cta cks)).tag
          (indentElem sp (lvl + 1) (.mk ctg ca cte cta cks)).attrs
          (indentElem sp (lvl + 1) (.mk ctg ca cte cta cks)).text
          (if wsOnly cta = true then some (indStr sp (lvl + 1)) else cta)
          (indentElem sp (lvl + 1) (.mk ctg ca cte cta cks)).kids)).attrs
        (indentElem sp (lvl + 1) (.mk (indentElem sp (lvl + 1) (.mk ctg ca cte cta cks)).tag
          (indentElem sp (lvl + 1) (.mk ctg ca cte cta cks)).attrs
          (indentElem sp (lvl + 1) (.mk ctg ca cte cta cks)).text
          (if wsOnly cta = true then some (indStr sp (lvl + 1)) else cta)
          (indentElem sp (lvl + 1) (.mk ctg ca cte cta cks)).kids)).text
        (if wsOnly (if wsOnly cta = true then some (indStr sp (lvl + 1)) else cta) = true
          then some (indStr sp (lvl + 1))
          else (if wsOnly cta = true then some (indStr sp (lvl + 1)) else cta))
        (indentElem sp (lvl + 1) (.mk (indentElem sp (lvl + 1) (.mk ctg ca cte cta cks)).tag
          (indentElem sp (lvl + 1) (.mk ctg ca cte cta cks)).attrs
          (indentElem sp (lvl + 1) (.mk ctg ca cte cta cks)).text
          (if wsOnly cta = true then some (indStr sp (lvl + 1)) else cta)
          (indentElem sp (lvl + 1) (.mk ctg ca cte cta cks)).kids)).kids)
        (indentKids sp lvl (.cons y ys))
      = indentKids sp lvl (.cons (.mk ctg ca cte cta cks) (.cons d ds))
    rw [indentElem_tail_comm sp (lvl + 1) (indentElem sp (lvl + 1) (.mk ctg ca cte cta cks)), hE, hrest]
    by_cases hct : wsOnly cta = true
    · simp [indentKids, hct, hys, wsOnly_indStr sp hsp (lvl + 1),
        XElem.tag, XElem.attrs, XElem.text, XElem.tail, XElem.kids]
    · simp [indentKids, hct, hys,
        XElem.tag, XElem.attrs, XElem.text, XElem.tail, XElem.kids]

end

end USCRacing

namespace USCRacing

/-! ### Rerunning the dispatch on the committed (indented) tree (C9) -/

open MotecLdxUpdater

/-- If the dispatch succeeded on `t` producing `t'`, then rerunning the same
dispatch on the indented committed tree changes nothing: it reports success
with the tree unchanged. -/
theorem dispatch_rerun_indent (cat : Catalog) (n v : String) (c : Option String)
    (t t' : XElem) (h : dispatchMutate cat n v c t = (true, t')) :
    dispatchMutate cat n v c (indentElem " " 0 t') = (true, indentElem " " 0 t') := by
  simp only [dispatchMutate] at h ⊢
  by_cases hd : pyStartsWith n "ldx_details_" = true
  · rw [if_pos hd] at h ⊢
    split at h
    · rename_i r heq
      subst h
      have h2 := updSec_rerun_E "Details" _ (gDetails_rerun _ v) (gDetails_tag _ v)
        t true t' heq
      have h3 := updSec_fix_skel_E "Details" _ (gDetails_fix _ v)
        t' (indentElem " " 0 t') true h2 (skelEq_indentElem " " 0 t')
      rw [h3]
    · simp at h
  · rw [if_neg hd] at h ⊢
    by_cases hm : pyStartsWith n "ldx_math_" = true
    · rw [if_pos hm] at h ⊢
      split_ifs at h ⊢ with hlen
      · split at h
        · rename_i r heq
          subst h
          have h2 := updSec_rerun_E "MathItems" _ (gMath_rerun _ _ v) (gMath_tag _ _ v)
            t true t' heq
          have h3 := updSec_fix_skel_E "MathItems" _ (gMath_fix _ _ v)
            t' (indentElem " " 0 t') true h2 (skelEq_indentElem " " 0 t')
          rw [h3]
        · simp at h
      · simp at h
    · rw [if_neg hm] at h ⊢
      by_cases hs : pyStartsWith n "ldx_desc_" = true
      · rw [if_pos hs] at h ⊢
        split_ifs at h ⊢ with hlen
        · split at h
          · rename_i r heq
            subst h
            have h2 := updSec_rerun_E "Descriptors" _ (gDesc_rerun _ _ v) (gDesc_tag _ _ v)
              t true t' heq
            have h3 := updSec_fix_skel_E "Descriptors" _ (gDesc_fix _ _ v)
              t' (indentElem " " 0 t') true h2 (skelEq_indentElem " " 0 t')
            rw [h3]
          · simp at h
        · simp at h
      · rw [if_neg hs] at h ⊢
        simp only [Prod.mk.injEq, true_and] at h
        subst h
        have hfix : docUpd (docNameValue cat n v c).1 (docNameValue cat n v c).2
            (docUpd (docNameValue cat n v c).1 (docNameValue cat n v c).2 t)
            = docUpd (docNameValue cat n v c).1 (docNameValue cat n v c).2 t :=
          docUpd_rerun _ _ t
        have h3 := docUpd_fix (docNameValue cat n v c).1 (docNameValue cat n v c).2
          _ (indentElem " " 0 (docUpd (docNameValue cat n v c).1 (docNameValue cat n v c).2 t))
          hfix (skelEq_indentElem " " 0 _)
        rw [h3]

end USCRacing

namespace USCRacing

/-! ### Run equations and commit effects of `update_parameter_in_ldx` (C9) -/

open MotecLdxUpdater

theorem upd_eq_missing (fs : Fs) (cat : Catalog) (p n v : String) (c : Option String)
    (hfp : fs.lookup p = none) :
    update_parameter_in_ldx fs cat p n v c
      = { result := .raised "TypeError: NoneType object is not subscriptable",
          events := [], fsAfter := fs } := by
  simp [update_parameter_in_ldx, hfp]

theorem upd_eq_raw (fs : Fs) (cat : Catalog) (p n v : String) (c : Option String)
    (s : String) (hfp : fs.lookup p = some (.raw s)) :
    update_parameter_in_ldx fs cat p n v c
      = { result := .ok false, events := [], fsAfter := fs } := by
  simp [update_parameter_in_ldx, hfp]

theorem upd_eq_nohit (fs : Fs) (cat : Catalog) (p n v : String) (c : Option String)
    (t u : XElem) (hfp : fs.lookup p = some (.xml t))
    (hdm : dispatchMutate cat n v c t = (false, u)) :
    update_parameter_in_ldx fs cat p n v c
      = { result := .ok false, events := [], fsAfter := fs } := by
  simp [update_parameter_in_ldx, hfp, hdm]

theorem upd_eq_success (fs : Fs) (cat : Catalog) (p n v : String) (c : Option String)
    (t t' : XElem) (hfp : fs.lookup p = some (.xml t))
    (hdm : dispatchMutate cat n v c t = (true, t')) :
    update_parameter_in_ldx fs cat p n v c
      = { result := .ok true,
          events :=
            (if (fs.lookup (bakPath p)).isSome then ([] : List FsEvent)
              else [.backup p (bakPath p)]) ++
            [.writeTmp (tmpPath p) (.xml (indentElem " " 0 t')),
              .rename (tmpPath p) p, .verifyOpen p],
          fsAfter := applyEvents fs
            ((if (fs.lookup (bakPath p)).isSome then ([] : List FsEvent)
              else [.backup p (bakPath p)]) ++
            [.writeTmp (tmpPath p) (.xml (indentElem " " 0 t')),
              .rename (tmpPath p) p, .verifyOpen p]) } := by
  simp [update_parameter_in_ldx, hfp, hdm]

/-- Replaying the stage-commit-verify triple binds the target path to the
staged content. -/
theorem commit_lookup_self (fs : Fs) (p : String) (stg : Content) :
    (applyEvents fs [.writeTmp (tmpPath p) stg, .rename (tmpPath p) p,
      .verifyOpen p]).lookup p = some stg := by
  simp [applyEvents, applyEvent, Fs.lookup_set_eq]

/-- Replaying the stage-commit-verify triple leaves every path other than
the target and the temp path untouched. -/
theorem commit_lookup_other (fs : Fs) (p q : String) (stg : Content)
    (h1 : q ≠ p) (h2 : q ≠ tmpPath p) :
    (applyEvents fs [.writeTmp (tmpPath p) stg, .rename (tmpPath p) p,
      .verifyOpen p]).lookup q = fs.lookup q := by
  simp only [applyEvents, applyEvent, Fs.lookup_set_eq]
  rw [Fs.lookup_set_ne _ p q _ (Ne.symm h1),
    Fs.lookup_remove_ne _ _ _ (Ne.symm h2),
    Fs.lookup_set_ne _ _ _ _ (Ne.symm h2)]

end USCRacing

namespace USCRacing

open MotecLdxUpdater

/-- **C9**: applying the same `(parameter_name, value)` patch twice in
succession to the same LDX path yields, after the second patch, a file
whose stored content — hence whose bytes — is identical to its content
after the first patch; the second patch performs no backup event at all,
and the `.bak` sibling is left exactly as the first patch left it (an
existing backup is never overwritten).  The second run also reports the
same outcome as the first. -/
theorem c9_idempotent_patch (fs : Fs) (cat : Catalog) (p n v : String)
    (c : Option String) :
    (update_parameter_in_ldx
        (update_parameter_in_ldx fs cat p n v c).fsAfter cat p n v c).result
      = (update_parameter_in_ldx fs cat p n v c).result
    ∧ (update_parameter_in_ldx
        (update_parameter_in_ldx fs cat p n v c).fsAfter cat p n v c).fsAfter.lookup p
      = (update_parameter_in_ldx fs cat p n v c).fsAfter.lookup p
    ∧ ((update_parameter_in_ldx
        (update_parameter_in_ldx fs cat p n v c).fsAfter cat p n v c).fsAfter.lookup p).map
          Content.bytes
      = ((update_parameter_in_ldx fs cat p n v c).fsAfter.lookup p).map Content.bytes
    ∧ (∀ e ∈ (update_parameter_in_ldx
        (update_parameter_in_ldx fs cat p n v c).fsAfter cat p n v c).events,
        e.isBackup = false)
    ∧ (update_parameter_in_ldx
        (update_parameter_in_ldx fs cat p n v c).fsAfter cat p n v c).fsAfter.lookup (bakPath p)
      = (update_parameter_in_ldx fs cat p n v c).fsAfter.lookup (bakPath p) := by
  cases hfp : fs.lookup p with
  | none => simp [upd_eq_missing fs cat p n v c hfp]
  | some ct =>
    cases ct with
    | raw s => simp [upd_eq_raw fs cat p n v c s hfp]
    | xml t =>
      cases hdm : dispatchMutate cat n v c t with
      | mk b t' =>
        cases b with
        | false => simp [upd_eq_nohit fs cat p n v c t t' hfp hdm]
        | true =>
          have hsp : (" " : String).data.all (·.isWhitespace) = true := by decide
          have hIdem : indentElem " " 0 (indentElem " " 0 t') = indentElem " " 0 t' :=
            indentElem_idem " " hsp 0 t'
          have hre := dispatch_rerun_indent cat n v c t t' hdm
          have h1 := upd_eq_success fs cat p n v c t t' hfp hdm
          by_cases hbak : (fs.lookup (bakPath p)).isSome = true
          · rw [if_pos hbak] at h1
            simp only [List.nil_append] at h1
            have f1 := commit_lookup_self fs p (.xml (indentElem " " 0 t'))
            have f2 := commit_lookup_other fs p (bakPath p) (.xml (indentElem " " 0 t'))
              (bakPath_ne p) (Ne.symm (tmpPath_ne_bakPath p))
            have h2 := upd_eq_success
              (applyEvents fs [.writeTmp (tmpPath p) (.xml (indentElem " " 0 t')),
                .rename (tmpPath p) p, .verifyOpen p])
              cat p n v c (indentElem " " 0 t') (indentElem " " 0 t') f1 hre
            rw [hIdem] at h2
            have hbak2 : ((applyEvents fs [.writeTmp (tmpPath p) (.xml (indentElem " " 0 t')),
                .rename (tmpPath p) p, .verifyOpen p]).lookup (bakPath p)).isSome = true := by
              rw [f2]; exact hbak
            rw [if_pos hbak2] at h2
            simp only [List.nil_append] at h2
            simp only [h1, h2]
            refine ⟨trivial, ?_, ?_, ?_, ?_⟩
            · rw [commit_lookup_self, f1]
            · rw [commit_lookup_self, f1]
            · intro e he
              simp only [List.mem_cons, List.not_mem_nil, or_false] at he
              rcases he with h | h | h <;> subst h <;> rfl
            · rw [commit_lookup_other _ p (bakPath p) _
                (bakPath_ne p) (Ne.symm (tmpPath_ne_bakPath p))]
          · rw [if_neg hbak] at h1
            simp only [List.cons_append, List.nil_append] at h1
            have hstep : applyEvents fs (FsEvent.backup p (bakPath p) ::
                [.writeTmp (tmpPath p) (.xml (indentElem " " 0 t')),
                  .rename (tmpPath p) p, .verifyOpen p])
                = applyEvents (fs.set (bakPath p) (.xml t))
                  [.writeTmp (tmpPath p) (.xml (indentElem " " 0 t')),
                    .rename (tmpPath p) p, .verifyOpen p] := by
              simp only [applyEvents, applyEvent, hfp]
            rw [hstep] at h1
            have f1 := commit_lookup_self (fs.set (bakPath p) (.xml t)) p
              (.xml (indentElem " " 0 t'))
            have f2 := commit_lookup_other (fs.set (bakPath p) (.xml t)) p (bakPath p)
              (.xml (indentElem " " 0 t'))
              (bakPath_ne p) (Ne.symm (tmpPath_ne_bakPath p))
            rw [Fs.lookup_set_eq] at f2
            have h2 := upd_eq_success
              (applyEvents (fs.set (bakPath p) (.xml t))
                [.writeTmp (tmpPath p) (.xml (indentElem " " 0 t')),
                  .rename (tmpPath p) p, .verifyOpen p])
              cat p n v c (indentElem " " 0 t') (indentElem " " 0 t') f1 hre
            rw [hIdem] at h2
            have hbak2 : ((applyEvents (fs.set (bakPath p) (.xml t))
                [.writeTmp (tmpPath p) (.xml (indentElem " " 0 t')),
                  .rename (tmpPath p) p, .verifyOpen p]).lookup (bakPath p)).isSome = true := by
              rw [f2]; rfl
            rw [if_pos hbak2] at h2
            simp only [List.nil_append] at h2
            simp only [h1, h2]
            refine ⟨trivial, ?_, ?_, ?_, ?_⟩
            · rw [commit_lookup_self, f1]
            · rw [commit_lookup_self, f1]
            · intro e he
              simp only [List.mem_cons, List.not_mem_nil, or_false] at he
              rcases he with h | h | h <;> subst h <;> rfl
            · rw [commit_lookup_other _ p (bakPath p) _
                (bakPath_ne p) (Ne.symm (tmpPath_ne_bakPath p))]

end USCRacing
